import Mathlib

set_option maxHeartbeats 1000000

/-!
Verification development for the chess-tournament scheduler and
game-execution engine (`runner/src/game.ts`, `runner/src/points.ts`,
`runner/src/config.ts`).  The TypeScript source is shallowly embedded:

* the Rules Engine (`chess.js`) is out of scope for the spec and is modelled
  as an oracle (`RulesEngine`) whose predicates are functions of the list of
  plies applied since the game started; a position's pgn is modelled as that
  list of applied plies (the fixed opening prefix is elided);
* the network is modelled as a script: each move request receives the next
  `AttemptOutcome` of its turn's script, classified exactly as the source
  classifies a `fetch` result (abort timeout, other transport throw,
  non-2xx response, illegal move text, legal move text);
* effects (docker start/stop, result files) are modelled as explicit state
  (`World`) threaded through `playAndSaveGame`;
* wall-clock durations and log output are not modelled.
-/

deriving instance DecidableEq for Except

namespace ChessTournament

/-- A single ply in algebraic notation. -/
abbrev San := String

/-- Side to move, as in the source's `type Player = "white" | "black"`. -/
inductive Player where
  | white
  | black
deriving DecidableEq, Repr

/-- The opposing side (`currentPlayer === "white" ? "black" : "white"`). -/
def Player.other : Player → Player
  | .white => .black
  | .black => .white

/-- Role assignment for one game (`type Players = Record<Player, string>`). -/
structure Players where
  white : String
  black : String
deriving DecidableEq, Repr

/-- Look up the bot name playing a given side (`players[player]`). -/
def Players.get (ps : Players) : Player → String
  | .white => ps.white
  | .black => ps.black

/-- Constant `MOVE_TIMEOUT` from `config.ts` (milliseconds). -/
def MOVE_TIMEOUT : Nat := 5000

/-- Constant `MAX_ATTEMPTS_PER_TURN` from `config.ts`. -/
def MAX_ATTEMPTS_PER_TURN : Nat := 3

/-- Constant `MAX_TIMEOUTS_PER_GAME` from `config.ts`. -/
def MAX_TIMEOUTS_PER_GAME : Nat := 15

/-- A turn-level recoverable error, as in the source's `MoveError` union. -/
inductive MoveError where
  | TIMEOUT
  | INVALID_MOVE (move : String)
  | OUT_OF_MEMORY
deriving DecidableEq, Repr

/-- Tests whether a turn-error is a `TIMEOUT` (`err.type === "TIMEOUT"`). -/
def MoveError.isTimeout : MoveError → Bool
  | .TIMEOUT => true
  | _ => false

/-- Length of `errors.filter((err) => err.type === "TIMEOUT")`. -/
def countTimeouts (errors : List MoveError) : Nat :=
  (errors.filter MoveError.isTimeout).length

/-- The source's `InvalidResponseError` (non-2xx HTTP response, fatal). -/
structure InvalidResponseError where
  status : Nat
  message : String
deriving DecidableEq, Repr

/-- The source's `MoveResponse`: the legal move applied this turn (if any)
together with the turn-errors accumulated over the attempts. -/
structure MoveResponse where
  move : Option San
  player : Player
  errors : List MoveError
deriving DecidableEq, Repr

/-- Environment model of one move request's fate, mirroring the decision
tree in `makeMove`: the `fetch` either throws on the abort signal
(`DOMException`, classified `TIMEOUT`), throws otherwise (classified
`OUT_OF_MEMORY`), returns a non-2xx response (fatal `INVALID_RESPONSE`),
or returns a textual move that `chess.move` rejects or applies. -/
inductive AttemptOutcome where
  | timeout
  | transportFailure
  | invalidResponse (status : Nat) (message : String)
  | illegalMove (m : String)
  | legalMove (m : San)
deriving DecidableEq, Repr

/-- Tests whether a scripted attempt outcome is a request timeout. -/
def AttemptOutcome.isTimeout : AttemptOutcome → Bool
  | .timeout => true
  | _ => false

/-- Total number of timed-out move requests in a whole game script. -/
def scriptTimeouts (turns : List (List AttemptOutcome)) : Nat :=
  (turns.map (fun attempts => attempts.countP AttemptOutcome.isTimeout)).sum

/-- Observable content of one `POST /move` request body: the side to move
and the `failed_moves` list accumulated this turn. -/
structure MoveRequest where
  turn : Player
  failed_moves : List String
deriving DecidableEq, Repr

/-- The retry loop of `makeMove`: `attempt` counts requests made, capped by
`MAX_ATTEMPTS_PER_TURN`; each iteration sends one request (logged in the
returned request list) and classifies the scripted outcome exactly as the
source does.  Returns `none` when the script is exhausted mid-turn. -/
def makeMoveGo (player : Player) :
    List AttemptOutcome → Nat → List String → List MoveError → List MoveRequest →
    Option (Except InvalidResponseError MoveResponse × List MoveRequest)
  | [], attempt, _failedMoves, errors, reqs =>
    if attempt < MAX_ATTEMPTS_PER_TURN then none
    else some (.ok ⟨none, player, errors⟩, reqs)
  | o :: rest, attempt, failedMoves, errors, reqs =>
    if attempt < MAX_ATTEMPTS_PER_TURN then
      let reqs2 := reqs ++ [⟨player, failedMoves⟩]
      match o with
      | .timeout =>
        makeMoveGo player rest (attempt + 1) failedMoves (errors ++ [.TIMEOUT]) reqs2
      | .transportFailure =>
        makeMoveGo player rest (attempt + 1) failedMoves (errors ++ [.OUT_OF_MEMORY]) reqs2
      | .invalidResponse s msg => some (.error ⟨s, msg⟩, reqs2)
      | .illegalMove m =>
        makeMoveGo player rest (attempt + 1) (failedMoves ++ [m])
          (errors ++ [.INVALID_MOVE m]) reqs2
      | .legalMove m => some (.ok ⟨some m, player, errors⟩, reqs2)
    else some (.ok ⟨none, player, errors⟩, reqs)

/-- The source's `makeMove`: `attempt = 0`, empty `failedMoves` and
`errors`, then the bounded retry loop. -/
def makeMove (player : Player) (script : List AttemptOutcome) :
    Option (Except InvalidResponseError MoveResponse × List MoveRequest) :=
  makeMoveGo player script 0 [] [] []

/-- Oracle for the out-of-scope Rules Engine: every predicate `chess.isX()`
is a function of the plies applied since the game started. -/
structure RulesEngine where
  isGameOver : List San → Bool
  isDraw : List San → Bool
  isStalemate : List San → Bool
  isInsufficientMaterial : List San → Bool
  isDrawByFiftyMoves : List San → Bool
  isThreefoldRepetition : List San → Bool
  isCheckmate : List San → Bool

/-- Outcome kind (`type: "WIN" | "DRAW"`). -/
inductive OutcomeType where
  | WIN
  | DRAW
deriving DecidableEq, Repr

/-- Outcome reason, exactly the source's enumeration. -/
inductive OutcomeReason where
  | STALEMATE
  | INSUFFICIENT_MATERIAL
  | FIFTY_MOVES
  | THREEFOLD_REPETITION
  | OTHER
  | CHECKMATE
  | OPPONENT_TIMEOUT
  | OPPONENT_EXCEEDED_MAX_ATTEMPTS
deriving DecidableEq, Repr

/-- The source's `GameOutcome` record.  `pgn` is modelled as the list of
plies applied to the board since the game's start (`chess.pgn()` minus the
constant opening prefix); `moves` is the game loop's own move log; the
tagged-union payloads `winner` and `opponentErrors` become options. -/
structure GameOutcome where
  players : Players
  pgn : List San
  moves : List San
  type : OutcomeType
  reason : OutcomeReason
  winner : Option String
  opponentErrors : Option (List MoveError)
deriving DecidableEq, Repr

/-- A fatal, match-aborting error (`Result.error(new Error(...))`). -/
inductive GameError where
  | invalidResponse (player : String) (status : Nat) (message : String)
  | unknownGameState
deriving DecidableEq, Repr

/-- Side to move after `applied.length` plies: `chess.turn()` alternates
with every applied ply, starting from the opening position's side. -/
def turnAt (startTurn : Player) (applied : List San) : Player :=
  if applied.length % 2 = 0 then startTurn else startTurn.other

/-- Terminal classification after the loop exits (`chess.isGameOver()`),
following the source's cascade: draw sub-reasons in priority order, then
checkmate (winner = the loop's `currentPlayer`, the last mover), otherwise
the fatal "unknown game state" error. -/
def gameEnd (eng : RulesEngine) (players : Players) (applied : List San)
    (moves : List San) (current : Player) : Except GameError GameOutcome :=
  if eng.isDraw applied then
    if eng.isStalemate applied then
      .ok ⟨players, applied, moves, .DRAW, .STALEMATE, none, none⟩
    else if eng.isInsufficientMaterial applied then
      .ok ⟨players, applied, moves, .DRAW, .INSUFFICIENT_MATERIAL, none, none⟩
    else if eng.isDrawByFiftyMoves applied then
      .ok ⟨players, applied, moves, .DRAW, .FIFTY_MOVES, none, none⟩
    else if eng.isThreefoldRepetition applied then
      .ok ⟨players, applied, moves, .DRAW, .THREEFOLD_REPETITION, none, none⟩
    else
      .ok ⟨players, applied, moves, .DRAW, .OTHER, none, none⟩
  else if eng.isCheckmate applied then
    .ok ⟨players, applied, moves, .WIN, .CHECKMATE, some (players.get current), none⟩
  else
    .error .unknownGameState

/-- The game loop of `gameLoop`, one recursive step per `while` iteration.
State: the per-turn network scripts still to consume, the plies applied to
the board, the two running timeout counters, the move log, and the loop
variable `currentPlayer`.  A legal move is applied to the board inside
`makeMove` (`chess.move`), so `applied` grows before the forfeit checks;
`moves.push(move)` happens only after both checks, exactly as in the
source.  Returns `none` if the script runs out while the game is live. -/
def gameLoopGo (eng : RulesEngine) (players : Players) (startTurn : Player) :
    List (List AttemptOutcome) → List San → Nat → Nat → List San → Player →
    Option (Except GameError GameOutcome)
  | [], applied, _tw, _tb, moves, current =>
    if eng.isGameOver applied then some (gameEnd eng players applied moves current)
    else none
  | attempts :: restTurns, applied, tw, tb, moves, current =>
    if eng.isGameOver applied then some (gameEnd eng players applied moves current)
    else
      let cur := turnAt startTurn applied
      match makeMove cur attempts with
      | none => none
      | some (.error e, _) =>
        some (.error (.invalidResponse (players.get cur) e.status e.message))
      | some (.ok resp, _) =>
        match resp.move with
        | none =>
          some (.ok ⟨players, applied, moves, .WIN, .OPPONENT_EXCEEDED_MAX_ATTEMPTS,
            some (players.get cur.other), some resp.errors⟩)
        | some m =>
          let t := countTimeouts resp.errors
          let tw2 := if cur = .white then tw + t else tw
          let tb2 := if cur = .black then tb + t else tb
          if MAX_TIMEOUTS_PER_GAME ≤ (if cur = .white then tw2 else tb2) then
            some (.ok ⟨players, applied ++ [m], moves, .WIN, .OPPONENT_TIMEOUT,
              some (players.get cur.other), some resp.errors⟩)
          else
            gameLoopGo eng players startTurn restTurns (applied ++ [m]) tw2 tb2
              (moves ++ [m]) cur

/-- The source's `gameLoop`: counters at zero, empty move log,
`currentPlayer = "white"`, no plies applied yet. -/
def gameLoop (eng : RulesEngine) (players : Players) (startTurn : Player)
    (turns : List (List AttemptOutcome)) : Option (Except GameError GameOutcome) :=
  gameLoopGo eng players startTurn turns [] 0 0 [] .white

/-! ## Scheduler (`permutations` and the greedy grouping in `playRoundRobin`) -/

/-- The source's `permutations`: a `reduce` over the array with index `i`,
concatenating `array.slice(i + 1).map((w) => [v, w])` for each element `v`. -/
def permutations (array : List String) : List (String × String) :=
  array.enum.foldl
    (fun acc iv => acc ++ ((array.drop (iv.1 + 1)).map (fun w => (iv.2, w)))) []

/-- Structural form of `permutations`: all 2-combinations in order. -/
def combPairs : List String → List (String × String)
  | [] => []
  | v :: rest => (rest.map (fun w => (v, w))) ++ combPairs rest

/-- The group capacity of `playRoundRobin`:
`Math.floor((os.cpus().length - 2) / 4)`, i.e. floor division over `Int`. -/
def pairsPerGroup (numCpus : Nat) : Int :=
  ((numCpus : Int) - 2).fdiv 4

/-- `pair.includes(x)` for a 2-element pair. -/
def pairIncludes (pair : String × String) (x : String) : Bool :=
  pair.1 == x || pair.2 == x

/-- The group predicate of `playRoundRobin`'s `groups.find`: the group is
under capacity and no member pairing shares an entrant with `pair`
(`!group.some((p) => pair.includes(p[0]) || pair.includes(p[1]))`). -/
def groupAvailable (cap : Int) (pair : String × String)
    (group : List (String × String)) : Bool :=
  decide ((group.length : Int) < cap) &&
    !(group.any (fun p => pairIncludes pair p.1 || pairIncludes pair p.2))

/-- Scan the group list in order for the first available group and append
the pair to it; `none` if no group is available. -/
def tryAddPair (cap : Int) (pair : String × String) :
    List (List (String × String)) → Option (List (List (String × String)))
  | [] => none
  | g :: gs =>
    if groupAvailable cap pair g then some ((g ++ [pair]) :: gs)
    else (tryAddPair cap pair gs).map (fun gs2 => g :: gs2)

/-- One iteration of the grouping loop: place the pair in the first
available group, otherwise open a new group at the end. -/
def insertPair (cap : Int) (groups : List (List (String × String)))
    (pair : String × String) : List (List (String × String)) :=
  match tryAddPair cap pair groups with
  | some gs => gs
  | none => groups ++ [[pair]]

/-- The greedy grouping of `playRoundRobin` over the whole pairing list. -/
def makeGroups (cap : Int) (pairs : List (String × String)) :
    List (List (String × String)) :=
  pairs.foldl (insertPair cap) []

/-- Two pairings share an entrant. -/
def sharesEntrant (p q : String × String) : Prop :=
  p.1 = q.1 ∨ p.1 = q.2 ∨ p.2 = q.1 ∨ p.2 = q.2

instance (p q : String × String) : Decidable (sharesEntrant p q) := by
  unfold sharesEntrant; infer_instance

/-! ## Result persistence and the match runner (`playAndSaveGame`) -/

/-- Opening number extracted from the pgn path:
`pgnPath.split(path.sep).pop()?.split("-")[0]` — the last path component
split on `-`, first piece (computed over the character list). -/
def pgnNumberOf (pgnPath : String) : String :=
  String.mk ((((pgnPath.toList.splitOn '/').getLastD []).splitOn '-').headD [])

/-- The source's `resultFileName`:
`players.white + "-" + players.black + "-" + pgnNumber + ".json"`. -/
def resultFileName (players : Players) (pgnPath : String) : String :=
  players.white ++ "-" ++ players.black ++ "-" ++ pgnNumberOf pgnPath ++ ".json"

/-- Full path of a result file inside its phase directory. -/
def storeKey (saveDir fileName : String) : String :=
  saveDir ++ "/" ++ fileName

/-- Explicit state for the effects of `playAndSaveGame`: the persisted
result files, and append-only logs of every sandbox start and stop. -/
structure World where
  store : List (String × GameOutcome)
  started : List (String × Player)
  stopped : List (String × Player)
deriving DecidableEq, Repr

/-- File lookup (`Bun.file(...).exists()` / `.json()`). -/
def lookupStore (store : List (String × GameOutcome)) (key : String) :
    Option GameOutcome :=
  (store.find? (fun kv => kv.1 == key)).map (fun kv => kv.2)

/-- `dockerStartAll`: starts both role-tagged sandboxes. -/
def dockerStartAll (players : Players) (w : World) : World :=
  { w with started := w.started ++ [(players.white, .white), (players.black, .black)] }

/-- `dockerStopAll`: stops both role-tagged sandboxes. -/
def dockerStopAll (players : Players) (w : World) : World :=
  { w with stopped := w.stopped ++ [(players.white, .white), (players.black, .black)] }

/-- `saveResult`: persist the outcome under its result-file identity. -/
def saveResult (players : Players) (outcome : GameOutcome)
    (pgnPath saveDir : String) (w : World) : World :=
  { w with store := w.store ++ [(storeKey saveDir (resultFileName players pgnPath), outcome)] }

/-- Everything one game needs from the environment: the rules oracle, the
side to move in the opening position, and the per-turn network scripts. -/
structure GameEnv where
  eng : RulesEngine
  startTurn : Player
  turns : List (List AttemptOutcome)

/-- The source's `playAndSaveGame`, effects made explicit: skip-and-load if
the result file exists (no sandbox starts); otherwise start both
sandboxes, run the game loop, and — only on the success path — save the
result and stop the sandboxes.  On a fatal game error the source returns
early, so the model returns with the stop log untouched. -/
def playAndSaveGame (env : GameEnv) (players : Players)
    (pgnPath saveDir : String) (w : World) :
    Option (Except GameError GameOutcome × World) :=
  let fileName := resultFileName players pgnPath
  match lookupStore w.store (storeKey saveDir fileName) with
  | some existing => some (.ok existing, w)
  | none =>
    let w1 := dockerStartAll players w
    match gameLoop env.eng players env.startTurn env.turns with
    | none => none
    | some (.error e) => some (.error e, w1)
    | some (.ok outcome) =>
      let w2 := saveResult players outcome pgnPath saveDir w1
      let w3 := dockerStopAll players w2
      some (.ok outcome, w3)

/-! ## Group execution (`playRoundRobin`'s per-group `Promise.all`) -/

/-- Completion-order model of one group's `Promise.all`: matches settle in
list order; the callback of a failed match logs that match's error message
and calls `process.exit(1)` immediately, so later matches never report.
Returns the exit status and the list of reported error messages. -/
def runGroup (matchResult : String × String → Except String Unit) :
    List (String × String) → Nat × List String
  | [] => (0, [])
  | pair :: rest =>
    match matchResult pair with
    | .ok _ => runGroup matchResult rest
    | .error msg => (1, [msg])

/-- First fatal error message among a group's matches, in completion order. -/
def firstGroupError (matchResult : String × String → Except String Unit) :
    List (String × String) → Option String
  | [] => none
  | pair :: rest =>
    match matchResult pair with
    | .ok _ => firstGroupError matchResult rest
    | .error msg => some msg

/-! ## Scoring (`calculatePoints` from `points.ts`) -/

/-- Constant `POINTS_PER_WIN` from `config.ts`. -/
def POINTS_PER_WIN : ℚ := 1

/-- Constant `POINTS_PER_DRAW` from `config.ts`. -/
def POINTS_PER_DRAW : ℚ := 1 / 2

/-- Constant `POINTS_PER_LOSS` from `config.ts`. -/
def POINTS_PER_LOSS : ℚ := 0

/-- The source's `PointTotals` row. -/
structure PointTotals where
  bot : String
  wins : Nat
  draws : Nat
  losses : Nat
  points : ℚ
deriving DecidableEq, Repr

/-- Initialise a bot's totals row if absent (`if (!totals[name]) ...`);
the `Record` preserves insertion order, modelled by appending. -/
def ensureBot (ts : List PointTotals) (name : String) : List PointTotals :=
  if ts.any (fun t => t.bot == name) then ts else ts ++ [⟨name, 0, 0, 0, 0⟩]

/-- In-place mutation of a bot's row (`totals[name].x += ...`). -/
def updateBot (ts : List PointTotals) (name : String)
    (f : PointTotals → PointTotals) : List PointTotals :=
  ts.map (fun t => if t.bot == name then f t else t)

/-- `wins += 1; points += POINTS_PER_WIN`. -/
def addWin (t : PointTotals) : PointTotals :=
  { t with wins := t.wins + 1, points := t.points + POINTS_PER_WIN }

/-- `losses += 1; points += POINTS_PER_LOSS`. -/
def addLoss (t : PointTotals) : PointTotals :=
  { t with losses := t.losses + 1, points := t.points + POINTS_PER_LOSS }

/-- `draws += 1; points += POINTS_PER_DRAW`. -/
def addDraw (t : PointTotals) : PointTotals :=
  { t with draws := t.draws + 1, points := t.points + POINTS_PER_DRAW }

/-- One iteration of `calculatePoints`'s loop over outcomes: ensure both
rows exist, then credit win/loss (`outcome.winner === white` decides the
branch) or credit both sides with a draw. -/
def applyOutcome (ts : List PointTotals) (o : GameOutcome) : List PointTotals :=
  let w := o.players.white
  let b := o.players.black
  let ts1 := ensureBot (ensureBot ts w) b
  match o.type with
  | .WIN =>
    if o.winner == some w then updateBot (updateBot ts1 w addWin) b addLoss
    else updateBot (updateBot ts1 b addWin) w addLoss
  | .DRAW => updateBot (updateBot ts1 w addDraw) b addDraw

/-- The source's `calculatePoints`: fold the outcomes into totals, then
`Object.values(totals).toSorted((a, b) => b.points - a.points)`. -/
def calculatePoints (outcomes : List GameOutcome) : List PointTotals :=
  (outcomes.foldl applyOutcome []).mergeSort
    (fun a b => decide (b.points ≤ a.points))

/-- Sum of the points column. -/
def totalPoints (ts : List PointTotals) : ℚ :=
  (ts.map (fun t => t.points)).sum

/-- Points of a named bot in a totals list (0 if absent). -/
def pointsOf (ts : List PointTotals) (name : String) : ℚ :=
  ((ts.find? (fun t => t.bot == name)).map (fun t => t.points)).getD 0

/-- A bot appears in an outcome (plays white or black in it). -/
def appearsIn (name : String) (o : GameOutcome) : Bool :=
  o.players.white == name || o.players.black == name

/-! ## Concrete environments used by witnesses and counterexamples -/

/-- Rules oracle for a game that never reaches a terminal chess position. -/
def engNever : RulesEngine :=
  ⟨fun _ => false, fun _ => false, fun _ => false, fun _ => false,
   fun _ => false, fun _ => false, fun _ => false⟩

/-- Two concrete entrants. -/
def playersAB : Players := ⟨"alice", "bob"⟩

/-- A turn in which the white bot times out once, then plays a legal move. -/
def whiteTimeoutTurn : List AttemptOutcome := [.timeout, .legalMove "a3"]

/-- A turn in which the black bot answers legally at once. -/
def blackQuickTurn : List AttemptOutcome := [.legalMove "a6"]

/-- `n` white/black turn pairs with one white timeout each, then one final
white turn with one more timeout: white's counter reaches 15 on it. -/
def timeoutScript : Nat → List (List AttemptOutcome)
  | 0 => [whiteTimeoutTurn]
  | n + 1 => whiteTimeoutTurn :: blackQuickTurn :: timeoutScript n

/-- Alternating white/black replies of `timeoutScript`'s first `2·n` turns. -/
def altMoves : Nat → List San
  | 0 => []
  | n + 1 => "a3" :: "a6" :: altMoves n

/-- Move log of the game played on `timeoutScript 14`: the final white move
is applied to the position but never pushed onto the log. -/
def timeoutScript14Moves : List San := altMoves 14

/-- Plies applied to the position in the game played on `timeoutScript 14`:
one ply more than the move log. -/
def timeoutScript14Pgn : List San := altMoves 14 ++ ["a3"]

/-- A turn whose sandbox never responds: every attempt hits the abort
timeout. -/
def deadTurn : List AttemptOutcome := [.timeout, .timeout, .timeout]

/-- The turn-error recorded for a recoverable attempt outcome (`none` for
the fatal non-2xx case and for a legal move). -/
def recoverableError : AttemptOutcome → Option MoveError
  | .timeout => some .TIMEOUT
  | .transportFailure => some .OUT_OF_MEMORY
  | .illegalMove m => some (.INVALID_MOVE m)
  | _ => none

/-- The illegal move texts among a sequence of attempt outcomes, in order:
exactly what `makeMove` accumulates into `failedMoves`. -/
def illegalTexts (outcomes : List AttemptOutcome) : List String :=
  outcomes.filterMap (fun o =>
    match o with
    | .illegalMove m => some m
    | _ => none)

/-- Points credited to the white player by one outcome, following the
source's branch on `outcome.winner === white`. -/
def creditWhite (o : GameOutcome) : ℚ :=
  match o.type with
  | .WIN => if o.winner == some o.players.white then POINTS_PER_WIN else POINTS_PER_LOSS
  | .DRAW => POINTS_PER_DRAW

/-- Points credited to the black player by one outcome. -/
def creditBlack (o : GameOutcome) : ℚ :=
  match o.type with
  | .WIN => if o.winner == some o.players.white then POINTS_PER_LOSS else POINTS_PER_WIN
  | .DRAW => POINTS_PER_DRAW

/-- Wins + draws + losses of a totals row. -/
def tally (t : PointTotals) : Nat :=
  t.wins + t.draws + t.losses

/-- A group in which every match fails fatally, with distinct messages. -/
def failAll : String × String → Except String Unit := fun pair =>
  if pair.1 == "a" then .error "match a-b failed" else .error "match c-d failed"

/-- A stored outcome used to exercise the resume path. -/
def storedOutcome : GameOutcome :=
  ⟨playersAB, ["e4"], ["e4"], .WIN, .CHECKMATE, some "alice", none⟩

/-- A checkmate win for white, used to exercise the scoring reducer. -/
def winOutcomeW : GameOutcome :=
  ⟨playersAB, [], [], .WIN, .CHECKMATE, some "alice", none⟩

/-- A stalemate draw, used to exercise the scoring reducer. -/
def drawOutcomeW : GameOutcome :=
  ⟨playersAB, [], [], .DRAW, .STALEMATE, none, none⟩

/-- A two-game outcome list for the scoring witness. -/
def outcomesW : List GameOutcome := [winOutcomeW, drawOutcomeW]

/-! ## The pairing enumeration (`permutations`) -/

theorem combPairs_two_mul_length (l : List String) :
    2 * (combPairs l).length = l.length * (l.length - 1) := by
  induction l with
  | nil => simp [combPairs]
  | cons v rest ih =>
    simp only [combPairs, List.length_append, List.length_map, List.length_cons]
    cases hn : rest.length with
    | zero => rw [hn] at ih; simpa [hn] using ih
    | succ k =>
      rw [hn] at ih
      have h' : 2 * (combPairs rest).length = (k + 1) * k := by simpa using ih
      have e : (k + 1 + 1) * (k + 1 + 1 - 1) = (k + 1) * k + 2 * (k + 1) := by
        simp only [Nat.add_sub_cancel]
        ring
      rw [e, ← h']
      ring

theorem combPairs_length (l : List String) :
    (combPairs l).length = l.length * (l.length - 1) / 2 := by
  rw [← combPairs_two_mul_length l, Nat.mul_div_cancel_left _ (by norm_num)]

theorem combPairs_mem (l : List String) :
    ∀ p ∈ combPairs l, p.1 ∈ l ∧ p.2 ∈ l := by
  induction l with
  | nil => simp [combPairs]
  | cons v rest ih =>
    intro p hp
    rcases List.mem_append.1 hp with hmap | hrec
    · rcases List.mem_map.1 hmap with ⟨w, hw, rfl⟩
      exact ⟨List.mem_cons_self _ _, List.mem_cons_of_mem _ hw⟩
    · have := ih p hrec
      exact ⟨List.mem_cons_of_mem _ this.1, List.mem_cons_of_mem _ this.2⟩

theorem combPairs_ne (l : List String) (h : l.Nodup) :
    ∀ p ∈ combPairs l, p.1 ≠ p.2 := by
  induction l with
  | nil => simp [combPairs]
  | cons v rest ih =>
    intro p hp
    rcases List.mem_append.1 hp with hmap | hrec
    · rcases List.mem_map.1 hmap with ⟨w, hw, rfl⟩
      intro he
      have hvw : v = w := he
      exact (List.nodup_cons.1 h).1 (hvw ▸ hw)
    · exact ih (List.nodup_cons.1 h).2 p hrec

theorem combPairs_countP (l : List String) (h : l.Nodup) :
    ∀ x ∈ l, (combPairs l).countP (fun p => p.1 == x || p.2 == x) = l.length - 1 := by
  induction l with
  | nil => simp
  | cons v rest ih =>
    intro x hx
    have hv : v ∉ rest := (List.nodup_cons.1 h).1
    have hrest : rest.Nodup := (List.nodup_cons.1 h).2
    simp only [combPairs, List.countP_append, List.countP_map]
    rcases List.mem_cons.1 hx with rfl | hxr
    · have h1 : rest.countP
          ((fun p : String × String => p.1 == x || p.2 == x) ∘ fun w => (x, w)) =
          rest.length := by
        rw [List.countP_eq_length]
        intro a _
        simp
      have h2 : (combPairs rest).countP (fun p => p.1 == x || p.2 == x) = 0 := by
        rw [List.countP_eq_zero]
        intro p hp
        have hmem := combPairs_mem rest p hp
        simp only [Bool.or_eq_true, beq_iff_eq, not_or]
        exact ⟨fun he => hv (he ▸ hmem.1), fun he => hv (he ▸ hmem.2)⟩
      rw [h1, h2]
      simp
    · have hvx : (v == x) = false := by
        simp only [beq_eq_false_iff_ne, ne_eq]
        intro he
        exact hv (he ▸ hxr)
      have h1 : rest.countP
          ((fun p : String × String => p.1 == x || p.2 == x) ∘ fun w => (v, w)) =
          rest.countP (fun w => w == x) := by
        apply List.countP_congr
        intro a _
        simp [hvx]
      have h2 : rest.countP (fun w => w == x) = 1 :=
        List.count_eq_one_of_mem hrest hxr
      have h3 := ih hrest x hxr
      have hlen : 0 < rest.length := List.length_pos.2 (List.ne_nil_of_mem hxr)
      rw [h1, h2, h3]
      simp only [List.length_cons]
      omega

theorem permutations_eq_combPairs (l : List String) :
    permutations l = combPairs l := by
  have aux : ∀ (t : List String) (n : Nat), l.drop n = t → ∀ acc,
      (t.enumFrom n).foldl
        (fun acc iv => acc ++ ((l.drop (iv.1 + 1)).map (fun w => (iv.2, w)))) acc
        = acc ++ combPairs t := by
    intro t
    induction t with
    | nil => intro n _ acc; simp [combPairs]
    | cons v rest ih =>
      intro n h acc
      have hdrop : l.drop (n + 1) = rest := by
        have h1 : List.drop 1 (List.drop n l) = List.drop (n + 1) l :=
          List.drop_drop 1 n l
        rw [← h1, h]
        rfl
      simp only [List.enumFrom_cons, List.foldl_cons]
      rw [ih (n + 1) hdrop, hdrop]
      simp [combPairs]
  have h0 : l.drop 0 = l := List.drop_zero l
  calc permutations l
      = (l.enumFrom 0).foldl
          (fun acc iv => acc ++ ((l.drop (iv.1 + 1)).map (fun w => (iv.2, w)))) [] := rfl
    _ = [] ++ combPairs l := aux l 0 h0 []
    _ = combPairs l := by simp

/-- Claim C2: for distinct entrant names, `permutations` returns exactly
`N·(N-1)/2` pairs, each pair has two distinct entrants, and each entrant
appears in exactly `N-1` pairs. -/
theorem permutations_pair_enumeration (names : List String) (h : names.Nodup) :
    (permutations names).length = names.length * (names.length - 1) / 2 ∧
    (∀ p ∈ permutations names, p.1 ≠ p.2) ∧
    (∀ x ∈ names, (permutations names).countP (fun p => p.1 == x || p.2 == x)
        = names.length - 1) := by
  rw [permutations_eq_combPairs]
  exact ⟨combPairs_length names, combPairs_ne names h,
    fun x hx => combPairs_countP names h x hx⟩

/-- Witness for C2 at a concrete list of four distinct entrants. -/
theorem permutations_pair_enumeration_witness :
    (["a", "b", "c", "d"] : List String).Nodup ∧
    ((permutations ["a", "b", "c", "d"]).length =
        (["a", "b", "c", "d"] : List String).length *
          ((["a", "b", "c", "d"] : List String).length - 1) / 2 ∧
      (∀ p ∈ permutations ["a", "b", "c", "d"], p.1 ≠ p.2) ∧
      (∀ x ∈ (["a", "b", "c", "d"] : List String),
        (permutations ["a", "b", "c", "d"]).countP (fun p => p.1 == x || p.2 == x)
          = (["a", "b", "c", "d"] : List String).length - 1)) :=
  ⟨by decide, permutations_pair_enumeration ["a", "b", "c", "d"] (by decide)⟩

/-! ## The greedy resource grouping (`playRoundRobin`) -/

/-- Invariant of one resource group: it is within capacity and no two of
its pairings share an entrant. -/
def GroupOK (cap : Int) (g : List (String × String)) : Prop :=
  (g.length : Int) ≤ cap ∧ g.Pairwise (fun p q => ¬ sharesEntrant p q)

theorem not_shares_of_check (pair p : String × String)
    (h : (pairIncludes pair p.1 || pairIncludes pair p.2) = false) :
    ¬ sharesEntrant p pair := by
  simp only [pairIncludes, Bool.or_eq_false_iff, beq_eq_false_iff_ne, ne_eq] at h
  rcases h with ⟨⟨h1, h2⟩, h3, h4⟩
  intro hs
  rcases hs with h | h | h | h
  · exact h1 h.symm
  · exact h2 h.symm
  · exact h3 h.symm
  · exact h4 h.symm

theorem groupAvailable_spec (cap : Int) (pair : String × String)
    (g : List (String × String)) (h : groupAvailable cap pair g = true) :
    (g.length : Int) < cap ∧ ∀ p ∈ g, ¬ sharesEntrant p pair := by
  simp only [groupAvailable, Bool.and_eq_true, decide_eq_true_eq, Bool.not_eq_true',
    List.any_eq_false] at h
  refine ⟨h.1, fun p hp => ?_⟩
  exact not_shares_of_check pair p (by simpa using h.2 p hp)

theorem tryAddPair_ok (cap : Int) (pair : String × String) :
    ∀ (groups gs : List (List (String × String))),
      (∀ g ∈ groups, GroupOK cap g) →
      tryAddPair cap pair groups = some gs →
      ∀ g ∈ gs, GroupOK cap g := by
  intro groups
  induction groups with
  | nil => intro gs _ h; simp [tryAddPair] at h
  | cons g0 rest ih =>
    intro gs hok h
    simp only [tryAddPair] at h
    by_cases hav : groupAvailable cap pair g0
    · rw [if_pos hav] at h
      obtain rfl : (g0 ++ [pair]) :: rest = gs := by
        simpa using h
      intro g hg
      rcases List.mem_cons.1 hg with rfl | hrest
      · obtain ⟨hlen, hsh⟩ := groupAvailable_spec cap pair g0 hav
        obtain ⟨_, hpw⟩ := hok g0 (List.mem_cons_self _ _)
        constructor
        · simp only [List.length_append, List.length_singleton]
          push_cast
          omega
        · rw [List.pairwise_append]
          refine ⟨hpw, List.pairwise_singleton _ _, ?_⟩
          intro a ha b hb
          rcases List.mem_singleton.1 hb with rfl
          exact hsh a ha
      · exact hok g (List.mem_cons_of_mem _ hrest)
    · rw [if_neg hav] at h
      rcases Option.map_eq_some'.1 h with ⟨gs2, hgs2, rfl⟩
      intro g hg
      rcases List.mem_cons.1 hg with rfl | hrest
      · exact hok g (List.mem_cons_self _ _)
      · exact ih gs2 (fun g' hg' => hok g' (List.mem_cons_of_mem _ hg')) hgs2 g hrest

theorem insertPair_ok (cap : Int) (hcap : 1 ≤ cap)
    (groups : List (List (String × String))) (pair : String × String)
    (hok : ∀ g ∈ groups, GroupOK cap g) :
    ∀ g ∈ insertPair cap groups pair, GroupOK cap g := by
  unfold insertPair
  cases h : tryAddPair cap pair groups with
  | some gs => exact tryAddPair_ok cap pair groups gs hok h
  | none =>
    intro g hg
    rcases List.mem_append.1 hg with hold | hnew
    · exact hok g hold
    · rcases List.mem_singleton.1 hnew with rfl
      exact ⟨by simpa using hcap, List.pairwise_singleton _ _⟩

theorem makeGroups_ok (cap : Int) (hcap : 1 ≤ cap)
    (pairs : List (String × String)) :
    ∀ g ∈ makeGroups cap pairs, GroupOK cap g := by
  have aux : ∀ (ps : List (String × String)) (groups : List (List (String × String))),
      (∀ g ∈ groups, GroupOK cap g) →
      ∀ g ∈ ps.foldl (insertPair cap) groups, GroupOK cap g := by
    intro ps
    induction ps with
    | nil => intro groups h; simpa using h
    | cons p rest ih =>
      intro groups h
      simp only [List.foldl_cons]
      exact ih (insertPair cap groups p) (insertPair_ok cap hcap groups p h)
  exact aux pairs [] (by simp)

/-- Claim C1: for a positive group capacity
`floor((availableCores - 2) / 4)`, the greedy grouping of the pairing list
yields groups in which no entrant appears in more than one pairing and
whose pairing count never exceeds the capacity. -/
theorem roundRobin_group_invariants (numCpus : Nat) (names : List String)
    (hcap : 0 < pairsPerGroup numCpus) :
    ∀ g ∈ makeGroups (pairsPerGroup numCpus) (permutations names),
      (g.length : Int) ≤ pairsPerGroup numCpus ∧
      g.Pairwise (fun p q => ¬ sharesEntrant p q) :=
  makeGroups_ok (pairsPerGroup numCpus) hcap (permutations names)

/-- Witness for C1: ten cores give capacity 2; with entrants a, b, c, d the
group containing pairings (a,b) and (c,d) satisfies both invariants. -/
theorem roundRobin_group_invariants_witness :
    0 < pairsPerGroup 10 ∧
    [("a", "b"), ("c", "d")] ∈ makeGroups (pairsPerGroup 10) (permutations ["a", "b", "c", "d"]) ∧
    ((([("a", "b"), ("c", "d")] : List (String × String)).length : Int) ≤ pairsPerGroup 10 ∧
      ([("a", "b"), ("c", "d")] : List (String × String)).Pairwise
        (fun p q => ¬ sharesEntrant p q)) :=
  ⟨by decide, by decide,
    roundRobin_group_invariants 10 ["a", "b", "c", "d"] (by decide) _ (by decide)⟩

/-! ## The per-turn retry protocol (`makeMove`) -/

theorem makeMoveGo_reqs_le (player : Player) :
    ∀ (script : List AttemptOutcome) (attempt : Nat) (failedMoves : List String)
      (errors : List MoveError) (reqs : List MoveRequest) r reqs',
      makeMoveGo player script attempt failedMoves errors reqs = some (r, reqs') →
      reqs'.length ≤ reqs.length + (MAX_ATTEMPTS_PER_TURN - attempt) := by
  intro script
  induction script with
  | nil =>
    intro attempt failedMoves errors reqs r reqs' h
    simp only [makeMoveGo] at h
    split at h
    · simp at h
    · obtain ⟨rfl, rfl⟩ : (Except.ok ⟨none, player, errors⟩ : Except InvalidResponseError MoveResponse) = r ∧ reqs = reqs' := by
        simpa using h
      omega
  | cons o rest ih =>
    intro attempt failedMoves errors reqs r reqs' h
    simp only [makeMoveGo] at h
    split at h
    · rename_i hlt
      cases o with
      | timeout =>
        have := ih (attempt + 1) failedMoves (errors ++ [.TIMEOUT])
          (reqs ++ [⟨player, failedMoves⟩]) r reqs' h
        simp only [List.length_append, List.length_singleton] at this
        unfold MAX_ATTEMPTS_PER_TURN at hlt this ⊢
        omega
      | transportFailure =>
        have := ih (attempt + 1) failedMoves (errors ++ [.OUT_OF_MEMORY])
          (reqs ++ [⟨player, failedMoves⟩]) r reqs' h
        simp only [List.length_append, List.length_singleton] at this
        unfold MAX_ATTEMPTS_PER_TURN at hlt this ⊢
        omega
      | invalidResponse s msg =>
        obtain ⟨rfl, rfl⟩ : (Except.error ⟨s, msg⟩ : Except InvalidResponseError MoveResponse) = r ∧ reqs ++ [⟨player, failedMoves⟩] = reqs' := by
          simpa using h
        simp only [List.length_append, List.length_singleton]
        unfold MAX_ATTEMPTS_PER_TURN at hlt ⊢
        omega
      | illegalMove m =>
        have := ih (attempt + 1) (failedMoves ++ [m]) (errors ++ [.INVALID_MOVE m])
          (reqs ++ [⟨player, failedMoves⟩]) r reqs' h
        simp only [List.length_append, List.length_singleton] at this
        unfold MAX_ATTEMPTS_PER_TURN at hlt this ⊢
        omega
      | legalMove m =>
        obtain ⟨rfl, rfl⟩ : (Except.ok ⟨some m, player, errors⟩ : Except InvalidResponseError MoveResponse) = r ∧ reqs ++ [⟨player, failedMoves⟩] = reqs' := by
          simpa using h
        simp only [List.length_append, List.length_singleton]
        unfold MAX_ATTEMPTS_PER_TURN at hlt ⊢
        omega
    · obtain ⟨rfl, rfl⟩ : (Except.ok ⟨none, player, errors⟩ : Except InvalidResponseError MoveResponse) = r ∧ reqs = reqs' := by
        simpa using h
      omega

theorem makeMoveGo_three (player : Player) (script : List AttemptOutcome)
    (failedMoves : List String) (errors : List MoveError) (reqs : List MoveRequest) :
    makeMoveGo player script 3 failedMoves errors reqs =
      some (.ok ⟨none, player, errors⟩, reqs) := by
  cases script <;> simp [makeMoveGo, MAX_ATTEMPTS_PER_TURN]

/-- Claim C5: a turn issues at most 3 move requests; three consecutive
recoverable failures (illegal move, timeout, or transport failure) return
"no move" with exactly the accumulated turn-errors, and each request of
the turn carries exactly the illegal move texts of the earlier attempts
as its `failed_moves` list. -/
theorem makeMove_retry_protocol :
    (∀ (player : Player) (script : List AttemptOutcome) r reqs,
        makeMove player script = some (r, reqs) →
        reqs.length ≤ MAX_ATTEMPTS_PER_TURN) ∧
    (∀ (player : Player) (a b c : AttemptOutcome) (rest : List AttemptOutcome)
        (ea eb ec : MoveError),
        recoverableError a = some ea →
        recoverableError b = some eb →
        recoverableError c = some ec →
        makeMove player (a :: b :: c :: rest) =
          some (.ok ⟨none, player, [ea, eb, ec]⟩,
            [⟨player, []⟩, ⟨player, illegalTexts [a]⟩, ⟨player, illegalTexts [a, b]⟩])) := by
  constructor
  · intro player script r reqs h
    have := makeMoveGo_reqs_le player script 0 [] [] [] r reqs h
    simpa using this
  · intro player a b c rest ea eb ec ha hb hc
    cases a <;> cases b <;> cases c <;>
      simp_all +decide [makeMove, makeMoveGo, makeMoveGo_three, recoverableError,
        illegalTexts, MAX_ATTEMPTS_PER_TURN]

/-- Witness for C5: an illegal move, a timeout, and a transport failure in
one turn produce no move, the three recorded errors, and requests whose
`failed_moves` lists grow with the illegal attempt. -/
theorem makeMove_retry_protocol_witness :
    recoverableError (.illegalMove "zz") = some (.INVALID_MOVE "zz") ∧
    recoverableError .timeout = some .TIMEOUT ∧
    recoverableError .transportFailure = some .OUT_OF_MEMORY ∧
    makeMove .white [.illegalMove "zz", .timeout, .transportFailure] =
      some (.ok ⟨none, .white, [.INVALID_MOVE "zz", .TIMEOUT, .OUT_OF_MEMORY]⟩,
        [⟨.white, []⟩, ⟨.white, illegalTexts [.illegalMove "zz"]⟩,
          ⟨.white, illegalTexts [.illegalMove "zz", .timeout]⟩]) ∧
    ([(⟨.white, []⟩ : MoveRequest), ⟨.white, ["zz"]⟩, ⟨.white, ["zz"]⟩] :
        List MoveRequest).length ≤ MAX_ATTEMPTS_PER_TURN :=
  ⟨rfl, rfl, rfl,
    makeMove_retry_protocol.2 .white (.illegalMove "zz") .timeout .transportFailure []
      (.INVALID_MOVE "zz") .TIMEOUT .OUT_OF_MEMORY rfl rfl rfl,
    makeMove_retry_protocol.1 .white [.illegalMove "zz", .timeout, .transportFailure]
      (.ok ⟨none, .white, [.INVALID_MOVE "zz", .TIMEOUT, .OUT_OF_MEMORY]⟩)
      [⟨.white, []⟩, ⟨.white, ["zz"]⟩, ⟨.white, ["zz"]⟩] rfl⟩

/-! ## The game loop (`gameLoop`) -/

theorem gameEnd_ok_spec (eng : RulesEngine) (players : Players) (applied : List San)
    (moves : List San) (current : Player) (o : GameOutcome)
    (h : gameEnd eng players applied moves current = .ok o) :
    o.pgn = applied ∧ o.moves = moves ∧ o.reason ≠ .OPPONENT_TIMEOUT ∧
    o.reason ≠ .OPPONENT_EXCEEDED_MAX_ATTEMPTS := by
  unfold gameEnd at h
  split_ifs at h <;>
    first
    | (simp only [Except.ok.injEq] at h; subst h; simp)
    | simp at h

theorem black_ne_white : Player.black ≠ Player.white := fun h => Player.noConfusion h

theorem white_ne_black : Player.white ≠ Player.black := fun h => Player.noConfusion h

theorem countTimeouts_append (es : List MoveError) (e : MoveError) :
    countTimeouts (es ++ [e]) = countTimeouts es + (if e.isTimeout then 1 else 0) := by
  simp only [countTimeouts, List.filter_append, List.length_append]
  cases e <;> simp [MoveError.isTimeout]

theorem makeMoveGo_timeouts_le (player : Player) :
    ∀ (script : List AttemptOutcome) (attempt : Nat) (failedMoves : List String)
      (errors : List MoveError) (reqs : List MoveRequest) (resp : MoveResponse)
      (reqs' : List MoveRequest),
      makeMoveGo player script attempt failedMoves errors reqs = some (.ok resp, reqs') →
      countTimeouts resp.errors ≤
        countTimeouts errors + script.countP AttemptOutcome.isTimeout := by
  intro script
  induction script with
  | nil =>
    intro attempt failedMoves errors reqs resp reqs' h
    simp only [makeMoveGo] at h
    split at h
    · simp at h
    · obtain ⟨rfl, rfl⟩ : (⟨none, player, errors⟩ : MoveResponse) = resp ∧ reqs = reqs' := by
        simpa using h
      simp
  | cons o rest ih =>
    intro attempt failedMoves errors reqs resp reqs' h
    simp only [makeMoveGo] at h
    split at h
    · cases o with
      | timeout =>
        have := ih (attempt + 1) failedMoves (errors ++ [.TIMEOUT])
          (reqs ++ [⟨player, failedMoves⟩]) resp reqs' h
        rw [countTimeouts_append] at this
        simp only [List.countP_cons, AttemptOutcome.isTimeout, MoveError.isTimeout] at this ⊢
        omega
      | transportFailure =>
        have := ih (attempt + 1) failedMoves (errors ++ [.OUT_OF_MEMORY])
          (reqs ++ [⟨player, failedMoves⟩]) resp reqs' h
        rw [countTimeouts_append] at this
        simp only [List.countP_cons, AttemptOutcome.isTimeout, MoveError.isTimeout] at this ⊢
        omega
      | invalidResponse s msg => exact absurd h (by simp)
      | illegalMove m =>
        have := ih (attempt + 1) (failedMoves ++ [m]) (errors ++ [.INVALID_MOVE m])
          (reqs ++ [⟨player, failedMoves⟩]) resp reqs' h
        rw [countTimeouts_append] at this
        simp only [List.countP_cons, AttemptOutcome.isTimeout, MoveError.isTimeout] at this ⊢
        omega
      | legalMove m =>
        obtain ⟨rfl, rfl⟩ : (⟨some m, player, errors⟩ : MoveResponse) = resp ∧
            reqs ++ [⟨player, failedMoves⟩] = reqs' := by
          simpa using h
        simp only [List.countP_cons]
        omega
    · obtain ⟨rfl, rfl⟩ : (⟨none, player, errors⟩ : MoveResponse) = resp ∧ reqs = reqs' := by
        simpa using h
      simp only [List.countP_cons]
      omega

theorem makeMove_timeouts_le (player : Player) (script : List AttemptOutcome)
    (resp : MoveResponse) (reqs : List MoveRequest)
    (h : makeMove player script = some (.ok resp, reqs)) :
    countTimeouts resp.errors ≤ script.countP AttemptOutcome.isTimeout := by
  have := makeMoveGo_timeouts_le player script 0 [] [] [] resp reqs h
  simpa [countTimeouts] using this

theorem gameLoopGo_timeout_total (eng : RulesEngine) (players : Players)
    (startTurn : Player) :
    ∀ (turns : List (List AttemptOutcome)) (applied : List San) (tw tb : Nat)
      (moves : List San) (current : Player) (o : GameOutcome),
      gameLoopGo eng players startTurn turns applied tw tb moves current = some (.ok o) →
      o.reason = .OPPONENT_TIMEOUT →
      MAX_TIMEOUTS_PER_GAME ≤ tw + tb + scriptTimeouts turns := by
  intro turns
  induction turns with
  | nil =>
    intro applied tw tb moves current o hrun hr
    simp only [gameLoopGo] at hrun
    split at hrun
    · rw [Option.some_inj] at hrun
      exact absurd hr (gameEnd_ok_spec _ _ _ _ _ _ hrun).2.2.1
    · exact absurd hrun (by simp)
  | cons attempts restTurns ih =>
    intro applied tw tb moves current o hrun hr
    have hscript : scriptTimeouts (attempts :: restTurns) =
        attempts.countP AttemptOutcome.isTimeout + scriptTimeouts restTurns := by
      simp [scriptTimeouts]
    simp only [gameLoopGo] at hrun
    split at hrun
    · rw [Option.some_inj] at hrun
      exact absurd hr (gameEnd_ok_spec _ _ _ _ _ _ hrun).2.2.1
    · split at hrun
      · exact absurd hrun (by simp)
      · exact absurd hrun (by simp)
      · rename_i resp reqs hmm
        have hletotal : countTimeouts resp.errors ≤
            attempts.countP AttemptOutcome.isTimeout :=
          makeMove_timeouts_le _ _ _ _ hmm
        split at hrun
        · rename_i hmove
          rw [Option.some_inj] at hrun
          simp only [Except.ok.injEq] at hrun
          subst hrun
          simp at hr
        · rename_i m hmove
          cases hA : turnAt startTurn applied <;>
            simp only [hA] at hrun <;> simp at hrun
          · split at hrun
            · rename_i hcond
              rw [hscript]
              omega
            · have := ih (applied ++ [m]) _ _ (moves ++ [m]) .white o hrun hr
              rw [hscript]
              omega
          · split at hrun
            · rename_i hcond
              rw [hscript]
              omega
            · have := ih (applied ++ [m]) _ _ (moves ++ [m]) .black o hrun hr
              rw [hscript]
              omega

/-- Claim C3: the timeout-count forfeiture (a `WIN` with reason
`OPPONENT_TIMEOUT` for the opponent) fires exactly when the forfeiting
player's maintained cumulative count of `TIMEOUT` turn-errors reaches
`MAX_TIMEOUTS_PER_GAME` (15), regardless of how the timeouts are
distributed across turns.  (1) Never while the count is 14 or less: a
turn that produces a legal move and leaves the mover's updated cumulative
count below 15 decides nothing — the loop is the recursive call on the
remaining turns with the updated counters.  (2) Exactly upon reaching 15:
a turn that pushes the mover's cumulative count to 15 or beyond returns
the `OPPONENT_TIMEOUT` win for the opponent immediately, with that turn's
errors attached.  (3) Whole-game soundness from zero counters: an
`OPPONENT_TIMEOUT` outcome requires at least 15 timed-out requests in the
game script, so the count that triggers it is accumulated across turns. -/
theorem gameLoop_timeout_forfeit_threshold :
    (∀ (eng : RulesEngine) (players : Players) (startTurn : Player)
        (attempts : List AttemptOutcome) (restTurns : List (List AttemptOutcome))
        (applied : List San) (tw tb : Nat) (moves : List San) (current : Player)
        (resp : MoveResponse) (reqs : List MoveRequest) (m : San),
      eng.isGameOver applied = false →
      makeMove (turnAt startTurn applied) attempts = some (.ok resp, reqs) →
      resp.move = some m →
      (if turnAt startTurn applied = .white then tw else tb) + countTimeouts resp.errors <
        MAX_TIMEOUTS_PER_GAME →
      gameLoopGo eng players startTurn (attempts :: restTurns) applied tw tb moves current =
        gameLoopGo eng players startTurn restTurns (applied ++ [m])
          (if turnAt startTurn applied = .white then tw + countTimeouts resp.errors else tw)
          (if turnAt startTurn applied = .black then tb + countTimeouts resp.errors else tb)
          (moves ++ [m]) (turnAt startTurn applied)) ∧
    (∀ (eng : RulesEngine) (players : Players) (startTurn : Player)
        (attempts : List AttemptOutcome) (restTurns : List (List AttemptOutcome))
        (applied : List San) (tw tb : Nat) (moves : List San) (current : Player)
        (resp : MoveResponse) (reqs : List MoveRequest) (m : San),
      eng.isGameOver applied = false →
      makeMove (turnAt startTurn applied) attempts = some (.ok resp, reqs) →
      resp.move = some m →
      MAX_TIMEOUTS_PER_GAME ≤
        (if turnAt startTurn applied = .white then tw else tb) + countTimeouts resp.errors →
      gameLoopGo eng players startTurn (attempts :: restTurns) applied tw tb moves current =
        some (.ok ⟨players, applied ++ [m], moves, .WIN, .OPPONENT_TIMEOUT,
          some (players.get (turnAt startTurn applied).other), some resp.errors⟩)) ∧
    (∀ (eng : RulesEngine) (players : Players) (startTurn : Player)
        (turns : List (List AttemptOutcome)) (o : GameOutcome),
      gameLoop eng players startTurn turns = some (.ok o) →
      o.reason = .OPPONENT_TIMEOUT →
      MAX_TIMEOUTS_PER_GAME ≤ scriptTimeouts turns) := by
  refine ⟨?_, ?_, ?_⟩
  · intro eng players startTurn attempts restTurns applied tw tb moves current
      resp reqs m hover hmm hmove hcond
    simp only [gameLoopGo, hover, Bool.false_eq_true, if_false, hmm, hmove]
    cases hA : turnAt startTurn applied
    · simp only [hA, white_ne_black, black_ne_white, if_true, if_false] at hcond ⊢
      rw [if_neg (by omega)]
    · simp only [hA, white_ne_black, black_ne_white, if_true, if_false] at hcond ⊢
      rw [if_neg (by omega)]
  · intro eng players startTurn attempts restTurns applied tw tb moves current
      resp reqs m hover hmm hmove hcond
    simp only [gameLoopGo, hover, Bool.false_eq_true, if_false, hmm, hmove]
    cases hA : turnAt startTurn applied
    · simp only [hA, white_ne_black, black_ne_white, if_true, if_false] at hcond ⊢
      rw [if_pos hcond]
    · simp only [hA, white_ne_black, black_ne_white, if_true, if_false] at hcond ⊢
      rw [if_pos hcond]
  · intro eng players startTurn turns o hrun hr
    have h := gameLoopGo_timeout_total eng players startTurn turns [] 0 0 [] .white o
      hrun hr
    simpa using h

/-- Witness for C3: at a cumulative count of 14 a turn with one more
timeout but a legal move continues the loop (count 14 stays below the
threshold until updated); at 14 plus one timeout reaching 15 the same
turn forfeits to black; and the concrete forfeited game's script holds
exactly 15 timed-out requests. -/
theorem gameLoop_timeout_forfeit_threshold_witness :
    (gameLoopGo engNever playersAB .white [[.timeout, .legalMove "g3"]] [] 13 0 [] .white =
      gameLoopGo engNever playersAB .white [] ["g3"] 14 0 ["g3"] .white) ∧
    (gameLoopGo engNever playersAB .white [[.timeout, .legalMove "h3"]] [] 14 0 [] .white =
      some (.ok ⟨playersAB, [] ++ ["h3"], [], .WIN, .OPPONENT_TIMEOUT,
        some (playersAB.get (turnAt .white ([] : List San)).other), some [.TIMEOUT]⟩)) ∧
    (gameLoop engNever playersAB .white (timeoutScript 14) =
      some (.ok ⟨playersAB, timeoutScript14Pgn, timeoutScript14Moves, .WIN,
        .OPPONENT_TIMEOUT, some "bob", some [.TIMEOUT]⟩)) ∧
    MAX_TIMEOUTS_PER_GAME ≤ scriptTimeouts (timeoutScript 14) := by
  refine ⟨?_, ?_, rfl, ?_⟩
  · exact gameLoop_timeout_forfeit_threshold.1 engNever playersAB .white
      [.timeout, .legalMove "g3"] [] [] 13 0 [] .white ⟨some "g3", .white, [.TIMEOUT]⟩
      [⟨.white, []⟩, ⟨.white, []⟩] "g3" rfl rfl rfl (by decide)
  · exact gameLoop_timeout_forfeit_threshold.2.1 engNever playersAB .white
      [.timeout, .legalMove "h3"] [] [] 14 0 [] .white ⟨some "h3", .white, [.TIMEOUT]⟩
      [⟨.white, []⟩, ⟨.white, []⟩] "h3" rfl rfl rfl (by decide)
  · exact gameLoop_timeout_forfeit_threshold.2.2 engNever playersAB .white
      (timeoutScript 14) _ rfl rfl

/-- Counterexample to C4 as stated: with a sandbox that never responds,
the very first affected turn records three `TIMEOUT` turn-errors (one per
attempt, not one per turn) and the game ends immediately with
`OPPONENT_EXCEEDED_MAX_ATTEMPTS` — not after 15 such turns with
`OPPONENT_TIMEOUT`. -/
theorem gameLoop_dead_sandbox_counterexample :
    gameLoop engNever playersAB .white [deadTurn] =
      some (.ok ⟨playersAB, [], [], .WIN, .OPPONENT_EXCEEDED_MAX_ATTEMPTS, some "bob",
        some [.TIMEOUT, .TIMEOUT, .TIMEOUT]⟩) ∧
    OutcomeReason.OPPONENT_EXCEEDED_MAX_ATTEMPTS ≠ OutcomeReason.OPPONENT_TIMEOUT ∧
    countTimeouts [.TIMEOUT, .TIMEOUT, .TIMEOUT] = 3 :=
  ⟨rfl, by decide, rfl⟩

/-- Amended C4: a turn on which every move request times out accumulates
one `TIMEOUT` turn-error per attempt (three in total), produces no move,
and the game forfeits immediately — on that first fully-timed-out turn —
with a `WIN` for the opponent with reason `OPPONENT_EXCEEDED_MAX_ATTEMPTS`
and the three `TIMEOUT` errors attached as evidence. -/
theorem gameLoop_dead_sandbox_exceeds_attempts (eng : RulesEngine) (players : Players)
    (startTurn : Player) (restTurns : List (List AttemptOutcome)) (applied : List San)
    (tw tb : Nat) (moves : List San) (current : Player)
    (hover : eng.isGameOver applied = false) :
    gameLoopGo eng players startTurn (deadTurn :: restTurns) applied tw tb moves current =
      some (.ok ⟨players, applied, moves, .WIN, .OPPONENT_EXCEEDED_MAX_ATTEMPTS,
        some (players.get (turnAt startTurn applied).other),
        some [.TIMEOUT, .TIMEOUT, .TIMEOUT]⟩) := by
  have hmm : makeMove (turnAt startTurn applied) deadTurn =
      some (.ok ⟨none, turnAt startTurn applied, [.TIMEOUT, .TIMEOUT, .TIMEOUT]⟩,
        [⟨turnAt startTurn applied, []⟩, ⟨turnAt startTurn applied, []⟩,
          ⟨turnAt startTurn applied, []⟩]) := by
    simp +decide [makeMove, makeMoveGo, makeMoveGo_three, deadTurn, MAX_ATTEMPTS_PER_TURN]
  simp only [gameLoopGo, hover, Bool.false_eq_true, if_false, hmm]

/-- Witness for the amended C4 at a concrete game. -/
theorem gameLoop_dead_sandbox_exceeds_attempts_witness :
    engNever.isGameOver [] = false ∧
    gameLoopGo engNever playersAB .white (deadTurn :: []) [] 0 0 [] .white =
      some (.ok ⟨playersAB, [], [], .WIN, .OPPONENT_EXCEEDED_MAX_ATTEMPTS,
        some (playersAB.get (turnAt .white ([] : List San)).other),
        some [.TIMEOUT, .TIMEOUT, .TIMEOUT]⟩) :=
  ⟨rfl, gameLoop_dead_sandbox_exceeds_attempts engNever playersAB .white [] [] 0 0 [] .white rfl⟩

theorem gameLoopGo_pgn_moves (eng : RulesEngine) (players : Players)
    (startTurn : Player) :
    ∀ (turns : List (List AttemptOutcome)) (applied : List San) (tw tb : Nat)
      (moves : List San) (current : Player) (o : GameOutcome),
      applied = moves →
      gameLoopGo eng players startTurn turns applied tw tb moves current = some (.ok o) →
      o.reason = .OPPONENT_TIMEOUT →
      ∃ m, o.pgn = o.moves ++ [m] := by
  intro turns
  induction turns with
  | nil =>
    intro applied tw tb moves current o _ hrun hr
    simp only [gameLoopGo] at hrun
    split at hrun
    · rw [Option.some_inj] at hrun
      exact absurd hr (gameEnd_ok_spec _ _ _ _ _ _ hrun).2.2.1
    · exact absurd hrun (by simp)
  | cons attempts restTurns ih =>
    intro applied tw tb moves current o heq hrun hr
    simp only [gameLoopGo] at hrun
    split at hrun
    · rw [Option.some_inj] at hrun
      exact absurd hr (gameEnd_ok_spec _ _ _ _ _ _ hrun).2.2.1
    · split at hrun
      · exact absurd hrun (by simp)
      · exact absurd hrun (by simp)
      · rename_i resp reqs hmm
        split at hrun
        · rename_i hmove
          rw [Option.some_inj] at hrun
          simp only [Except.ok.injEq] at hrun
          subst hrun
          simp at hr
        · rename_i m hmove
          cases hA : turnAt startTurn applied <;>
            simp only [hA] at hrun <;> simp at hrun
          · split at hrun
            · rw [Option.some_inj] at hrun
              simp only [Except.ok.injEq] at hrun
              subst hrun
              exact ⟨m, by simp [heq]⟩
            · exact ih (applied ++ [m]) _ _ (moves ++ [m]) .white o (by rw [heq]) hrun hr
          · split at hrun
            · rw [Option.some_inj] at hrun
              simp only [Except.ok.injEq] at hrun
              subst hrun
              exact ⟨m, by simp [heq]⟩
            · exact ih (applied ++ [m]) _ _ (moves ++ [m]) .black o (by rw [heq]) hrun hr

/-- Claim C9: in every `OPPONENT_TIMEOUT` outcome the legal move returned
on the forfeiting turn has been applied to the position — it is the last
ply of the outcome's pgn — but it is not appended to the outcome's move
list, which therefore ends exactly one ply short of the pgn. -/
theorem gameLoop_timeout_pgn_one_ply_ahead (eng : RulesEngine) (players : Players)
    (startTurn : Player) (turns : List (List AttemptOutcome)) (o : GameOutcome)
    (hrun : gameLoop eng players startTurn turns = some (.ok o))
    (hr : o.reason = .OPPONENT_TIMEOUT) :
    ∃ m, o.pgn = o.moves ++ [m] ∧ m ∈ o.pgn ∧ o.pgn.length = o.moves.length + 1 := by
  obtain ⟨m, hm⟩ :=
    gameLoopGo_pgn_moves eng players startTurn turns [] 0 0 [] .white o rfl hrun hr
  exact ⟨m, hm, by simp [hm], by simp [hm]⟩

/-- Witness for C9: the concrete timeout-forfeited game's pgn ends with
the forfeiting turn's move, one ply past the recorded move list. -/
theorem gameLoop_timeout_pgn_one_ply_ahead_witness :
    ∃ o, gameLoop engNever playersAB .white (timeoutScript 14) = some (.ok o) ∧
      o.reason = .OPPONENT_TIMEOUT ∧
      ∃ m, o.pgn = o.moves ++ [m] ∧ m ∈ o.pgn ∧ o.pgn.length = o.moves.length + 1 :=
  ⟨_, rfl, rfl,
    gameLoop_timeout_pgn_one_ply_ahead engNever playersAB .white (timeoutScript 14) _
      rfl rfl⟩

/-! ## Result persistence and sandbox lifecycle (`playAndSaveGame`) -/

/-- Claim C6: when a result file already exists for the (players, opening)
key, `playAndSaveGame` returns the persisted outcome unchanged and leaves
the world untouched — in particular it starts zero sandboxes — so
re-running the tournament over completed game files reproduces identical
outcomes. -/
theorem playAndSaveGame_idempotent_resume (env : GameEnv) (players : Players)
    (pgnPath saveDir : String) (w : World) (o : GameOutcome)
    (h : lookupStore w.store (storeKey saveDir (resultFileName players pgnPath)) = some o) :
    playAndSaveGame env players pgnPath saveDir w = some (.ok o, w) := by
  simp only [playAndSaveGame, h]

/-- Witness for C6: a world already holding the result of this game. -/
theorem playAndSaveGame_idempotent_resume_witness :
    lookupStore [("results/round-robin/alice-bob-001.json", storedOutcome)]
      (storeKey "results/round-robin"
        (resultFileName playersAB "data/silversuite/001-x.pgn")) = some storedOutcome ∧
    playAndSaveGame ⟨engNever, .white, []⟩ playersAB "data/silversuite/001-x.pgn"
      "results/round-robin"
      ⟨[("results/round-robin/alice-bob-001.json", storedOutcome)], [], []⟩ =
      some (.ok storedOutcome,
        ⟨[("results/round-robin/alice-bob-001.json", storedOutcome)], [], []⟩) :=
  ⟨rfl, playAndSaveGame_idempotent_resume ⟨engNever, .white, []⟩ playersAB
    "data/silversuite/001-x.pgn" "results/round-robin"
    ⟨[("results/round-robin/alice-bob-001.json", storedOutcome)], [], []⟩ storedOutcome rfl⟩

/-- Claim C7 (code bug): on the fatal-error path `playAndSaveGame` returns
before `dockerStopAll`, so for a game that was actually run and aborted by
a non-2xx response, both sandboxes have been started and neither has been
stopped when the function returns — the guaranteed-release obligation of
the spec is violated. -/
theorem playAndSaveGame_fatal_leaves_sandboxes_running :
    playAndSaveGame ⟨engNever, .white, [[.invalidResponse 500 "boom"]]⟩ playersAB
      "data/silversuite/001-x.pgn" "results/round-robin" ⟨[], [], []⟩ =
      some (.error (.invalidResponse "alice" 500 "boom"),
        ⟨[], [("alice", .white), ("bob", .black)], []⟩) ∧
    ([("alice", Player.white), ("bob", Player.black)] : List (String × Player)) ≠ [] :=
  ⟨rfl, by decide⟩

/-- On the success path the source does stop both sandboxes; the leak of
claim C7 is specific to the fatal-error early return. -/
theorem playAndSaveGame_success_stops_sandboxes (env : GameEnv) (players : Players)
    (pgnPath saveDir : String) (w : World) (outcome : GameOutcome)
    (hmiss : lookupStore w.store (storeKey saveDir (resultFileName players pgnPath)) = none)
    (hrun : gameLoop env.eng players env.startTurn env.turns = some (.ok outcome)) :
    playAndSaveGame env players pgnPath saveDir w =
      some (.ok outcome,
        dockerStopAll players (saveResult players outcome pgnPath saveDir
          (dockerStartAll players w))) := by
  simp only [playAndSaveGame, hmiss, hrun]

/-- Witness for the success-path lemma. -/
theorem playAndSaveGame_success_stops_sandboxes_witness :
    lookupStore ([] : List (String × GameOutcome))
      (storeKey "results/round-robin"
        (resultFileName playersAB "data/silversuite/001-x.pgn")) = none ∧
    gameLoop engNever playersAB .white [deadTurn] =
      some (.ok ⟨playersAB, [], [], .WIN, .OPPONENT_EXCEEDED_MAX_ATTEMPTS, some "bob",
        some [.TIMEOUT, .TIMEOUT, .TIMEOUT]⟩) ∧
    playAndSaveGame ⟨engNever, .white, [deadTurn]⟩ playersAB
      "data/silversuite/001-x.pgn" "results/round-robin" ⟨[], [], []⟩ =
      some (.ok ⟨playersAB, [], [], .WIN, .OPPONENT_EXCEEDED_MAX_ATTEMPTS, some "bob",
        some [.TIMEOUT, .TIMEOUT, .TIMEOUT]⟩,
        dockerStopAll playersAB (saveResult playersAB
          ⟨playersAB, [], [], .WIN, .OPPONENT_EXCEEDED_MAX_ATTEMPTS, some "bob",
            some [.TIMEOUT, .TIMEOUT, .TIMEOUT]⟩
          "data/silversuite/001-x.pgn" "results/round-robin"
          (dockerStartAll playersAB ⟨[], [], []⟩))) :=
  ⟨rfl, rfl, playAndSaveGame_success_stops_sandboxes ⟨engNever, .white, [deadTurn]⟩ playersAB
    "data/silversuite/001-x.pgn" "results/round-robin" ⟨[], [], []⟩ _ rfl rfl⟩

/-! ## Group execution and error reporting (`playRoundRobin`) -/

/-- Counterexample to C8 as stated: with two matches of the same group both
failing fatally, only the first failure's message is reported before the
process exits with status 1; the second message is never reported. -/
theorem runGroup_reports_only_first_counterexample :
    runGroup failAll [("a", "b"), ("c", "d")] = (1, ["match a-b failed"]) ∧
    "match c-d failed" ∉ (runGroup failAll [("a", "b"), ("c", "d")]).2 :=
  ⟨rfl, by decide⟩

/-- Amended C8: a fatal error from any match in a group aborts the
tournament with exit status 1, but only the first fatal error message (in
completion order) is reported; sibling matches after it are not awaited
and their messages are not collected.  Without any failure the group
completes with status 0 and no messages. -/
theorem runGroup_first_error_only (matchResult : String × String → Except String Unit)
    (group : List (String × String)) :
    runGroup matchResult group =
      match firstGroupError matchResult group with
      | some msg => (1, [msg])
      | none => (0, []) := by
  induction group with
  | nil => simp [runGroup, firstGroupError]
  | cons pair rest ih =>
    simp only [runGroup, firstGroupError]
    cases matchResult pair with
    | ok _ => simpa using ih
    | error msg => simp

/-- Witness for the amended C8 at the concrete two-failure group. -/
theorem runGroup_first_error_only_witness :
    runGroup failAll [("a", "b"), ("c", "d")] =
      match firstGroupError failAll [("a", "b"), ("c", "d")] with
      | some msg => (1, [msg])
      | none => (0, []) :=
  runGroup_first_error_only failAll [("a", "b"), ("c", "d")]

/-! ## Scoring (`calculatePoints`) -/

theorem updateBot_cons (t : PointTotals) (ts : List PointTotals) (name : String)
    (f : PointTotals → PointTotals) :
    updateBot (t :: ts) name f =
      (if t.bot == name then f t else t) :: updateBot ts name f := rfl

theorem updateBot_id (ts : List PointTotals) (name : String)
    (f : PointTotals → PointTotals)
    (h : ∀ t ∈ ts, (t.bot == name) = false) : updateBot ts name f = ts := by
  induction ts with
  | nil => rfl
  | cons t rest ih =>
    rw [updateBot_cons, h t (List.mem_cons_self _ _), if_neg (by simp)]
    rw [ih (fun t' ht' => h t' (List.mem_cons_of_mem _ ht'))]

theorem totalPoints_cons (t : PointTotals) (ts : List PointTotals) :
    totalPoints (t :: ts) = t.points + totalPoints ts := by
  simp [totalPoints]

theorem totalPoints_updateBot (ts : List PointTotals) (name : String)
    (f : PointTotals → PointTotals) (d : ℚ)
    (hf : ∀ t, (f t).points = t.points + d)
    (h1 : ts.countP (fun t => t.bot == name) = 1) :
    totalPoints (updateBot ts name f) = totalPoints ts + d := by
  induction ts with
  | nil => simp at h1
  | cons t rest ih =>
    rw [List.countP_cons] at h1
    rw [updateBot_cons]
    by_cases hbt : (t.bot == name) = true
    · rw [if_pos hbt]
      have h0 : rest.countP (fun t => t.bot == name) = 0 := by
        rw [hbt] at h1; simpa using h1
      rw [totalPoints_cons, totalPoints_cons,
        updateBot_id rest name f (fun t' ht' => by
          have := List.countP_eq_zero.1 h0 t' ht'
          simpa using this),
        hf t]
      ring
    · rw [if_neg hbt]
      have h1' : rest.countP (fun t => t.bot == name) = 1 := by
        simp only [Bool.not_eq_true] at hbt
        rw [hbt] at h1; simpa using h1
      rw [totalPoints_cons, totalPoints_cons, ih h1']
      ring

theorem countP_updateBot (ts : List PointTotals) (name name' : String)
    (f : PointTotals → PointTotals) (hbot : ∀ t, (f t).bot = t.bot) :
    (updateBot ts name f).countP (fun t => t.bot == name') =
      ts.countP (fun t => t.bot == name') := by
  unfold updateBot
  rw [List.countP_map]
  apply List.countP_congr
  intro t _
  by_cases hb : t.bot = name
  · simp [hb, hbot]
  · simp [hb]

theorem totalPoints_ensureBot (ts : List PointTotals) (name : String) :
    totalPoints (ensureBot ts name) = totalPoints ts := by
  unfold ensureBot
  split
  · rfl
  · simp [totalPoints]

theorem countP_ensureBot_self (ts : List PointTotals) (name : String)
    (hle : ts.countP (fun t => t.bot == name) ≤ 1) :
    (ensureBot ts name).countP (fun t => t.bot == name) = 1 := by
  unfold ensureBot
  split
  · rename_i hany
    rcases List.any_eq_true.1 hany with ⟨t, ht, hbt⟩
    have : 0 < ts.countP (fun t => t.bot == name) :=
      List.countP_pos.2 ⟨t, ht, hbt⟩
    omega
  · rename_i hany
    have h0 : ts.countP (fun t => t.bot == name) = 0 := by
      rw [List.countP_eq_zero]
      intro t ht
      have := List.any_eq_true.not.1 hany
      push_neg at this
      simpa using this t ht
    rw [List.countP_append, h0, List.countP_singleton]
    simp

theorem countP_ensureBot_other (ts : List PointTotals) (name name' : String)
    (hne : name ≠ name') :
    (ensureBot ts name).countP (fun t => t.bot == name') =
      ts.countP (fun t => t.bot == name') := by
  unfold ensureBot
  split
  · rfl
  · rw [List.countP_append, List.countP_singleton]
    simp [hne]

theorem countP_ensureBot_le (ts : List PointTotals) (name name' : String)
    (hle : ∀ n, ts.countP (fun t => t.bot == n) ≤ 1) :
    (ensureBot ts name).countP (fun t => t.bot == name') ≤ 1 := by
  by_cases he : name = name'
  · subst he
    rw [countP_ensureBot_self ts name (hle name)]
  · rw [countP_ensureBot_other ts name name' he]
    exact hle name'

theorem find?_updateBot_self (ts : List PointTotals) (name : String)
    (f : PointTotals → PointTotals) (hbot : ∀ t, (f t).bot = t.bot) :
    (updateBot ts name f).find? (fun t => t.bot == name) =
      (ts.find? (fun t => t.bot == name)).map f := by
  induction ts with
  | nil => rfl
  | cons t rest ih =>
    rw [updateBot_cons]
    by_cases hb : (t.bot == name) = true
    · rw [if_pos hb]
      rw [List.find?_cons, List.find?_cons]
      have hfb : ((f t).bot == name) = true := by rw [hbot]; exact hb
      simp [hb, hfb]
    · rw [if_neg hb]
      rw [List.find?_cons, List.find?_cons]
      simp only [Bool.not_eq_true] at hb
      simp [hb, ih]

theorem find?_updateBot_other (ts : List PointTotals) (name name' : String)
    (f : PointTotals → PointTotals) (hbot : ∀ t, (f t).bot = t.bot)
    (hne : name' ≠ name) :
    (updateBot ts name f).find? (fun t => t.bot == name') =
      ts.find? (fun t => t.bot == name') := by
  induction ts with
  | nil => rfl
  | cons t rest ih =>
    rw [updateBot_cons]
    by_cases hb' : (t.bot == name') = true
    · have hb : (t.bot == name) = false := by
        simp only [beq_iff_eq] at hb' ⊢
        simp only [beq_eq_false_iff_ne, ne_eq]
        intro he
        exact hne (by rw [← hb', ← he])
      rw [if_neg (by simp [hb])]
      rw [List.find?_cons, List.find?_cons]
      simp [hb']
    · rw [List.find?_cons]
      by_cases hb : (t.bot == name) = true
      · rw [if_pos hb]
        have hfb' : ((f t).bot == name') = false := by
          rw [hbot]
          simpa using hb'
        rw [List.find?_cons]
        simp only [Bool.not_eq_true] at hb'
        simp [hfb', hb', ih]
      · rw [if_neg hb]
        rw [List.find?_cons]
        simp only [Bool.not_eq_true] at hb'
        simp [hb', ih]

theorem pointsOf_ensureBot_self (ts : List PointTotals) (name : String) :
    pointsOf (ensureBot ts name) name = pointsOf ts name := by
  unfold ensureBot pointsOf
  split
  · rfl
  · rename_i hany
    have h0 : ts.find? (fun t => t.bot == name) = none := by
      rw [List.find?_eq_none]
      intro t ht
      have := List.any_eq_true.not.1 hany
      push_neg at this
      simpa using this t ht
    rw [List.find?_append, h0]
    simp

theorem pointsOf_ensureBot_other (ts : List PointTotals) (name name' : String)
    (hne : name ≠ name') :
    pointsOf (ensureBot ts name) name' = pointsOf ts name' := by
  unfold ensureBot pointsOf
  split
  · rfl
  · rw [List.find?_append]
    have : ([(⟨name, 0, 0, 0, 0⟩ : PointTotals)].find? (fun t => t.bot == name')) = none := by
      simp [hne]
    rw [this]
    cases ts.find? (fun t => t.bot == name') <;> simp

theorem find?_ensureBot_self_isSome (ts : List PointTotals) (name : String) :
    ((ensureBot ts name).find? (fun t => t.bot == name)).isSome = true := by
  rw [List.find?_isSome]
  unfold ensureBot
  split
  · rename_i hany
    rcases List.any_eq_true.1 hany with ⟨t, ht, hbt⟩
    exact ⟨t, ht, hbt⟩
  · exact ⟨⟨name, 0, 0, 0, 0⟩, by simp⟩

theorem find?_ensureBot_isSome_mono (ts : List PointTotals) (name name' : String)
    (h : (ts.find? (fun t => t.bot == name')).isSome = true) :
    ((ensureBot ts name).find? (fun t => t.bot == name')).isSome = true := by
  rw [List.find?_isSome] at h ⊢
  rcases h with ⟨t, ht, hbt⟩
  unfold ensureBot
  split
  · exact ⟨t, ht, hbt⟩
  · exact ⟨t, List.mem_append_left _ ht, hbt⟩

theorem pointsOf_updateBot_self (ts : List PointTotals) (name : String)
    (f : PointTotals → PointTotals) (d : ℚ)
    (hbot : ∀ t, (f t).bot = t.bot)
    (hf : ∀ t, (f t).points = t.points + d)
    (hsome : (ts.find? (fun t => t.bot == name)).isSome = true) :
    pointsOf (updateBot ts name f) name = pointsOf ts name + d := by
  unfold pointsOf
  rw [find?_updateBot_self ts name f hbot]
  cases h : ts.find? (fun t => t.bot == name) with
  | none => rw [h] at hsome; simp at hsome
  | some t => simp [hf]

theorem pointsOf_updateBot_other (ts : List PointTotals) (name name' : String)
    (f : PointTotals → PointTotals) (hbot : ∀ t, (f t).bot = t.bot)
    (hne : name' ≠ name) :
    pointsOf (updateBot ts name f) name' = pointsOf ts name' := by
  unfold pointsOf
  rw [find?_updateBot_other ts name name' f hbot hne]

theorem bot_addWin (t : PointTotals) : (addWin t).bot = t.bot := rfl

theorem bot_addLoss (t : PointTotals) : (addLoss t).bot = t.bot := rfl

theorem bot_addDraw (t : PointTotals) : (addDraw t).bot = t.bot := rfl

theorem tally_addWin (t : PointTotals) : tally (addWin t) = tally t + 1 := by
  simp [tally, addWin]
  omega

theorem tally_addLoss (t : PointTotals) : tally (addLoss t) = tally t + 1 := by
  simp [tally, addLoss]
  omega

theorem tally_addDraw (t : PointTotals) : tally (addDraw t) = tally t + 1 := by
  simp [tally, addDraw]
  omega

theorem appearsIn_true_iff (n : String) (o : GameOutcome) :
    appearsIn n o = true ↔ (n = o.players.white ∨ n = o.players.black) := by
  simp only [appearsIn, Bool.or_eq_true, beq_iff_eq]
  constructor
  · rintro (h | h)
    · exact Or.inl h.symm
    · exact Or.inr h.symm
  · rintro (h | h)
    · exact Or.inl h.symm
    · exact Or.inr h.symm

theorem mem_ensureBot_mono (ts : List PointTotals) (name : String)
    (t : PointTotals) (h : t ∈ ts) : t ∈ ensureBot ts name := by
  unfold ensureBot
  split
  · exact h
  · exact List.mem_append_left _ h

theorem exists_bot_ensureBot_self (ts : List PointTotals) (name : String) :
    ∃ t ∈ ensureBot ts name, t.bot = name := by
  unfold ensureBot
  split
  · rename_i hany
    rcases List.any_eq_true.1 hany with ⟨t, ht, hbt⟩
    exact ⟨t, ht, by simpa using hbt⟩
  · exact ⟨⟨name, 0, 0, 0, 0⟩, List.mem_append_right _ (List.mem_singleton_self _), rfl⟩

theorem exists_bot_ensureBot_mono (ts : List PointTotals) (name n : String)
    (h : ∃ t ∈ ts, t.bot = n) : ∃ t ∈ ensureBot ts name, t.bot = n := by
  rcases h with ⟨t, ht, hbt⟩
  exact ⟨t, mem_ensureBot_mono ts name t ht, hbt⟩

theorem exists_bot_updateBot (ts : List PointTotals) (k : String)
    (f : PointTotals → PointTotals) (hfb : ∀ t, (f t).bot = t.bot) (n : String)
    (h : ∃ t ∈ ts, t.bot = n) : ∃ t' ∈ updateBot ts k f, t'.bot = n := by
  rcases h with ⟨t, ht, hbt⟩
  refine ⟨if t.bot == k then f t else t, List.mem_map.2 ⟨t, ht, rfl⟩, ?_⟩
  by_cases hb : (t.bot == k) = true
  · rw [if_pos hb, hfb]; exact hbt
  · rw [if_neg hb]; exact hbt

theorem mem_double_update (ts : List PointTotals) (k1 k2 : String)
    (f g : PointTotals → PointTotals) (hk : k1 ≠ k2)
    (hfb : ∀ t, (f t).bot = t.bot)
    (t' : PointTotals) (h : t' ∈ updateBot (updateBot ts k1 f) k2 g) :
    ∃ t ∈ ts, (t.bot = k1 ∧ t' = f t) ∨ (t.bot = k2 ∧ t' = g t) ∨
      (t.bot ≠ k1 ∧ t.bot ≠ k2 ∧ t' = t) := by
  unfold updateBot at h
  rw [List.mem_map] at h
  obtain ⟨u, hu, rfl⟩ := h
  rw [List.mem_map] at hu
  obtain ⟨t, ht, rfl⟩ := hu
  refine ⟨t, ht, ?_⟩
  by_cases h1 : t.bot = k1
  · left
    refine ⟨h1, ?_⟩
    have hb1 : (t.bot == k1) = true := by simpa using h1
    have hb2 : ((f t).bot == k2) = false := by
      rw [hfb]
      simp only [beq_eq_false_iff_ne, ne_eq, h1]
      exact hk
    simp [hb1, hb2]
  · by_cases h2 : t.bot = k2
    · right; left
      refine ⟨h2, ?_⟩
      have hb1 : (t.bot == k1) = false := by simpa using h1
      have hb2 : (t.bot == k2) = true := by simpa using h2
      simp [hb1, hb2]
    · right; right
      refine ⟨h1, h2, ?_⟩
      have hb1 : (t.bot == k1) = false := by simpa using h1
      have hb2 : (t.bot == k2) = false := by simpa using h2
      simp [hb1, hb2]

theorem ensureBot_tally_inv (ts : List PointTotals) (name : String)
    (processed : List GameOutcome)
    (h1 : ∀ t ∈ ts, tally t = processed.countP (fun o' => appearsIn t.bot o'))
    (h0 : ∀ n, (∀ t ∈ ts, t.bot ≠ n) →
      processed.countP (fun o' => appearsIn n o') = 0) :
    ∀ t ∈ ensureBot ts name, tally t = processed.countP (fun o' => appearsIn t.bot o') := by
  intro t ht
  unfold ensureBot at ht
  split at ht
  · exact h1 t ht
  · rename_i hany
    rcases List.mem_append.1 ht with h | h
    · exact h1 t h
    · rcases List.mem_singleton.1 h with rfl
      have habs : ∀ t' ∈ ts, t'.bot ≠ name := by
        intro t' ht' he
        have := List.any_eq_true.not.1 hany
        push_neg at this
        exact absurd (by simpa using he) (by simpa using this t' ht')
      have h00 := h0 name habs
      simp only [tally]
      rw [h00]

theorem double_update_tally (ts1 : List PointTotals) (o : GameOutcome)
    (processed : List GameOutcome) (k1 k2 : String)
    (f g : PointTotals → PointTotals) (hk : k1 ≠ k2)
    (hfb : ∀ t, (f t).bot = t.bot) (hgb : ∀ t, (g t).bot = t.bot)
    (hft : ∀ t, tally (f t) = tally t + 1) (hgt : ∀ t, tally (g t) = tally t + 1)
    (happ : ∀ n, appearsIn n o = true ↔ (n = k1 ∨ n = k2))
    (h1 : ∀ t ∈ ts1, tally t = processed.countP (fun o' => appearsIn t.bot o')) :
    ∀ t' ∈ updateBot (updateBot ts1 k1 f) k2 g,
      tally t' = (processed ++ [o]).countP (fun o' => appearsIn t'.bot o') := by
  intro t' ht'
  obtain ⟨t, ht, hcase⟩ := mem_double_update ts1 k1 k2 f g hk hfb t' ht'
  rw [List.countP_append, List.countP_singleton]
  rcases hcase with ⟨hb, heq⟩ | ⟨hb, heq⟩ | ⟨hb1, hb2, heq⟩
  · rw [heq]
    have happ1 : appearsIn (f t).bot o = true := by
      rw [hfb, hb]
      exact (happ k1).2 (Or.inl rfl)
    rw [hft, if_pos happ1, h1 t ht, hfb]
  · rw [heq]
    have happ2 : appearsIn (g t).bot o = true := by
      rw [hgb, hb]
      exact (happ k2).2 (Or.inr rfl)
    rw [hgt, if_pos happ2, h1 t ht, hgb]
  · rw [heq]
    have happ3 : appearsIn t.bot o = false := by
      cases h : appearsIn t.bot o
      · rfl
      · rcases (happ t.bot).1 h with he | he
        · exact absurd he hb1
        · exact absurd he hb2
    rw [if_neg (by simp [happ3]), h1 t ht]
    omega

theorem applyOutcome_keysOK (ts : List PointTotals) (o : GameOutcome)
    (h : ∀ n, ts.countP (fun t => t.bot == n) ≤ 1) :
    ∀ n, (applyOutcome ts o).countP (fun t => t.bot == n) ≤ 1 := by
  intro n
  have h1 : ∀ n', (ensureBot (ensureBot ts o.players.white) o.players.black).countP
      (fun t => t.bot == n') ≤ 1 := by
    intro n'
    apply countP_ensureBot_le
    intro n''
    apply countP_ensureBot_le
    exact h
  unfold applyOutcome
  cases o.type
  · dsimp only
    split
    · rw [countP_updateBot _ _ _ _ bot_addLoss, countP_updateBot _ _ _ _ bot_addWin]
      exact h1 n
    · rw [countP_updateBot _ _ _ _ bot_addLoss, countP_updateBot _ _ _ _ bot_addWin]
      exact h1 n
  · dsimp only
    rw [countP_updateBot _ _ _ _ bot_addDraw, countP_updateBot _ _ _ _ bot_addDraw]
    exact h1 n

theorem applyOutcome_totalPoints (ts : List PointTotals) (o : GameOutcome)
    (hwb : o.players.white ≠ o.players.black)
    (h : ∀ n, ts.countP (fun t => t.bot == n) ≤ 1) :
    totalPoints (applyOutcome ts o) = totalPoints ts + 1 := by
  have hw1 : (ensureBot (ensureBot ts o.players.white) o.players.black).countP
      (fun t => t.bot == o.players.white) = 1 := by
    rw [countP_ensureBot_other _ _ _ (Ne.symm hwb)]
    exact countP_ensureBot_self _ _ (h _)
  have hb1 : (ensureBot (ensureBot ts o.players.white) o.players.black).countP
      (fun t => t.bot == o.players.black) = 1 := by
    apply countP_ensureBot_self
    apply countP_ensureBot_le
    exact h
  have htot : totalPoints (ensureBot (ensureBot ts o.players.white) o.players.black) =
      totalPoints ts := by
    rw [totalPoints_ensureBot, totalPoints_ensureBot]
  unfold applyOutcome
  cases o.type
  · dsimp only
    split
    · rw [totalPoints_updateBot _ _ _ POINTS_PER_LOSS (fun t => rfl)
        (by rw [countP_updateBot _ _ _ _ bot_addWin]; exact hb1)]
      rw [totalPoints_updateBot _ _ _ POINTS_PER_WIN (fun t => rfl) hw1, htot]
      norm_num [POINTS_PER_WIN, POINTS_PER_LOSS]
    · rw [totalPoints_updateBot _ _ _ POINTS_PER_LOSS (fun t => rfl)
        (by rw [countP_updateBot _ _ _ _ bot_addWin]; exact hw1)]
      rw [totalPoints_updateBot _ _ _ POINTS_PER_WIN (fun t => rfl) hb1, htot]
      norm_num [POINTS_PER_WIN, POINTS_PER_LOSS]
  · dsimp only
    rw [totalPoints_updateBot _ _ _ POINTS_PER_DRAW (fun t => rfl)
      (by rw [countP_updateBot _ _ _ _ bot_addDraw]; exact hb1)]
    rw [totalPoints_updateBot _ _ _ POINTS_PER_DRAW (fun t => rfl) hw1, htot]
    norm_num [POINTS_PER_DRAW]
    ring

theorem exists_bot_applyOutcome (ts : List PointTotals) (o : GameOutcome) (n : String)
    (h : (∃ t ∈ ts, t.bot = n) ∨ n = o.players.white ∨ n = o.players.black) :
    ∃ t' ∈ applyOutcome ts o, t'.bot = n := by
  have hts1 : ∃ t ∈ ensureBot (ensureBot ts o.players.white) o.players.black, t.bot = n := by
    rcases h with h | rfl | rfl
    · exact exists_bot_ensureBot_mono _ _ _ (exists_bot_ensureBot_mono _ _ _ h)
    · exact exists_bot_ensureBot_mono _ _ _ (exists_bot_ensureBot_self _ _)
    · exact exists_bot_ensureBot_self _ _
  unfold applyOutcome
  cases o.type
  · dsimp only
    split
    · exact exists_bot_updateBot _ _ _ bot_addLoss _
        (exists_bot_updateBot _ _ _ bot_addWin _ hts1)
    · exact exists_bot_updateBot _ _ _ bot_addLoss _
        (exists_bot_updateBot _ _ _ bot_addWin _ hts1)
  · dsimp only
    exact exists_bot_updateBot _ _ _ bot_addDraw _
      (exists_bot_updateBot _ _ _ bot_addDraw _ hts1)

theorem applyOutcome_tally (ts : List PointTotals) (o : GameOutcome)
    (processed : List GameOutcome) (hwb : o.players.white ≠ o.players.black)
    (h1 : ∀ t ∈ ts, tally t = processed.countP (fun o' => appearsIn t.bot o'))
    (h0 : ∀ n, (∀ t ∈ ts, t.bot ≠ n) →
      processed.countP (fun o' => appearsIn n o') = 0) :
    ∀ t' ∈ applyOutcome ts o,
      tally t' = (processed ++ [o]).countP (fun o' => appearsIn t'.bot o') := by
  have h1' : ∀ t ∈ ensureBot (ensureBot ts o.players.white) o.players.black,
      tally t = processed.countP (fun o' => appearsIn t.bot o') := by
    apply ensureBot_tally_inv
    · exact ensureBot_tally_inv _ _ _ h1 h0
    · intro n habs
      apply h0
      intro t ht
      exact habs t (mem_ensureBot_mono _ _ _ ht)
  unfold applyOutcome
  cases o.type
  · dsimp only
    split
    · apply double_update_tally _ o _ _ _ _ _ hwb bot_addWin bot_addLoss
        tally_addWin tally_addLoss ?_ h1'
      intro n
      rw [appearsIn_true_iff]
    · apply double_update_tally _ o _ _ _ _ _ (Ne.symm hwb) bot_addWin bot_addLoss
        tally_addWin tally_addLoss ?_ h1'
      intro n
      rw [appearsIn_true_iff]
      tauto
  · dsimp only
    apply double_update_tally _ o _ _ _ _ _ hwb bot_addDraw bot_addDraw
      tally_addDraw tally_addDraw ?_ h1'
    intro n
    rw [appearsIn_true_iff]

theorem applyOutcome_fresh (ts : List PointTotals) (o : GameOutcome)
    (processed : List GameOutcome)
    (h0 : ∀ n, (∀ t ∈ ts, t.bot ≠ n) →
      processed.countP (fun o' => appearsIn n o') = 0) :
    ∀ n, (∀ t' ∈ applyOutcome ts o, t'.bot ≠ n) →
      (processed ++ [o]).countP (fun o' => appearsIn n o') = 0 := by
  intro n habs
  obtain ⟨tw, htw, hbw⟩ := exists_bot_applyOutcome ts o o.players.white (Or.inr (Or.inl rfl))
  obtain ⟨tb, htb, hbb⟩ := exists_bot_applyOutcome ts o o.players.black (Or.inr (Or.inr rfl))
  have hnw : n ≠ o.players.white := by
    intro he
    exact habs tw htw (hbw.trans he.symm)
  have hnb : n ≠ o.players.black := by
    intro he
    exact habs tb htb (hbb.trans he.symm)
  have hts : ∀ t ∈ ts, t.bot ≠ n := by
    intro t ht he
    obtain ⟨t', ht', hbt⟩ := exists_bot_applyOutcome ts o t.bot (Or.inl ⟨t, ht, rfl⟩)
    exact habs t' ht' (hbt.trans he)
  rw [List.countP_append, h0 n hts, List.countP_singleton]
  have happ : appearsIn n o = false := by
    cases h : appearsIn n o
    · rfl
    · rcases (appearsIn_true_iff n o).1 h with he | he
      · exact absurd he hnw
      · exact absurd he hnb
  simp [happ]

theorem foldl_keys_total :
    ∀ (outcomes : List GameOutcome) (ts : List PointTotals),
      (∀ o ∈ outcomes, o.players.white ≠ o.players.black) →
      (∀ n, ts.countP (fun t => t.bot == n) ≤ 1) →
      (∀ n, (outcomes.foldl applyOutcome ts).countP (fun t => t.bot == n) ≤ 1) ∧
      totalPoints (outcomes.foldl applyOutcome ts) =
        totalPoints ts + outcomes.length := by
  intro outcomes
  induction outcomes with
  | nil =>
    intro ts _ h
    exact ⟨h, by simp⟩
  | cons o rest ih =>
    intro ts hwb h
    simp only [List.foldl_cons]
    obtain ⟨ha, hb⟩ := ih (applyOutcome ts o)
      (fun o' ho' => hwb o' (List.mem_cons_of_mem _ ho'))
      (applyOutcome_keysOK ts o h)
    refine ⟨ha, ?_⟩
    rw [hb, applyOutcome_totalPoints ts o (hwb o (List.mem_cons_self _ _)) h]
    simp only [List.length_cons]
    push_cast
    ring

theorem foldl_tally :
    ∀ (outcomes : List GameOutcome) (ts : List PointTotals)
      (processed : List GameOutcome),
      (∀ o ∈ outcomes, o.players.white ≠ o.players.black) →
      (∀ t ∈ ts, tally t = processed.countP (fun o' => appearsIn t.bot o')) →
      (∀ n, (∀ t ∈ ts, t.bot ≠ n) →
        processed.countP (fun o' => appearsIn n o') = 0) →
      ∀ t ∈ outcomes.foldl applyOutcome ts,
        tally t = (processed ++ outcomes).countP (fun o' => appearsIn t.bot o') := by
  intro outcomes
  induction outcomes with
  | nil =>
    intro ts processed _ h1 _ t ht
    simpa using h1 t ht
  | cons o rest ih =>
    intro ts processed hwb h1 h0
    simp only [List.foldl_cons]
    intro t ht
    have h := ih (applyOutcome ts o) (processed ++ [o])
      (fun o' ho' => hwb o' (List.mem_cons_of_mem _ ho'))
      (applyOutcome_tally ts o processed (hwb o (List.mem_cons_self _ _)) h1 h0)
      (applyOutcome_fresh ts o processed h0) t ht
    simpa [List.append_assoc] using h

/-- Claim C10: `calculatePoints` conserves one point per game.  Part 1: for
game outcomes (two distinct players each) the points column sums to the
number of outcomes.  Part 2: every bot's wins + draws + losses equals the
number of outcomes it appears in.  Part 3: each processed outcome adds
exactly `creditWhite`/`creditBlack` to the two players' points, and these
credits are `POINTS_PER_WIN` (1) for the winner and `POINTS_PER_LOSS` (0)
for the loser of a `WIN`, and `POINTS_PER_DRAW` (0.5) for both players of
a `DRAW`. -/
theorem calculatePoints_conservation :
    (∀ (outcomes : List GameOutcome),
      (∀ o ∈ outcomes, o.players.white ≠ o.players.black) →
      totalPoints (calculatePoints outcomes) = (outcomes.length : ℚ)) ∧
    (∀ (outcomes : List GameOutcome),
      (∀ o ∈ outcomes, o.players.white ≠ o.players.black) →
      ∀ t ∈ calculatePoints outcomes,
        tally t = outcomes.countP (fun o => appearsIn t.bot o)) ∧
    (∀ (ts : List PointTotals) (o : GameOutcome),
      o.players.white ≠ o.players.black →
      (pointsOf (applyOutcome ts o) o.players.white =
          pointsOf ts o.players.white + creditWhite o ∧
        pointsOf (applyOutcome ts o) o.players.black =
          pointsOf ts o.players.black + creditBlack o) ∧
      (o.type = .WIN → o.winner = some o.players.white →
        creditWhite o = POINTS_PER_WIN ∧ creditBlack o = POINTS_PER_LOSS) ∧
      (o.type = .WIN → o.winner = some o.players.black →
        creditWhite o = POINTS_PER_LOSS ∧ creditBlack o = POINTS_PER_WIN) ∧
      (o.type = .DRAW →
        creditWhite o = POINTS_PER_DRAW ∧ creditBlack o = POINTS_PER_DRAW)) := by
  refine ⟨?_, ?_, ?_⟩
  · intro outcomes hwb
    have h := (foldl_keys_total outcomes [] hwb (by intro n; simp)).2
    have heq : totalPoints (calculatePoints outcomes) =
        totalPoints (outcomes.foldl applyOutcome []) := by
      unfold calculatePoints totalPoints
      exact List.Perm.sum_eq (List.Perm.map _ (List.mergeSort_perm _ _))
    rw [heq, h]
    simp [totalPoints]
  · intro outcomes hwb t ht
    unfold calculatePoints at ht
    have ht' : t ∈ outcomes.foldl applyOutcome [] :=
      (List.mergeSort_perm _ _).mem_iff.1 ht
    have h := foldl_tally outcomes [] [] hwb (by simp) (by intro n _; simp) t ht'
    simpa using h
  · intro ts o hwb
    have hsomew : ((ensureBot (ensureBot ts o.players.white) o.players.black).find?
        (fun t => t.bot == o.players.white)).isSome = true :=
      find?_ensureBot_isSome_mono _ _ _ (find?_ensureBot_self_isSome ts o.players.white)
    have hsomeb : ((ensureBot (ensureBot ts o.players.white) o.players.black).find?
        (fun t => t.bot == o.players.black)).isSome = true :=
      find?_ensureBot_self_isSome _ _
    have hchainw : pointsOf (ensureBot (ensureBot ts o.players.white) o.players.black)
        o.players.white = pointsOf ts o.players.white := by
      rw [pointsOf_ensureBot_other _ _ _ (Ne.symm hwb), pointsOf_ensureBot_self]
    have hchainb : pointsOf (ensureBot (ensureBot ts o.players.white) o.players.black)
        o.players.black = pointsOf ts o.players.black := by
      rw [pointsOf_ensureBot_self, pointsOf_ensureBot_other _ _ _ hwb]
    refine ⟨?_, ?_, ?_, ?_⟩
    · cases htype : o.type
      · by_cases hwin : (o.winner == some o.players.white) = true
        · simp only [applyOutcome, htype, if_pos hwin]
          constructor
          · rw [pointsOf_updateBot_other _ _ _ addLoss bot_addLoss hwb,
              pointsOf_updateBot_self _ _ addWin POINTS_PER_WIN bot_addWin
                (fun t => rfl) hsomew, hchainw]
            simp [creditWhite, htype, hwin]
          · rw [pointsOf_updateBot_self _ _ addLoss POINTS_PER_LOSS bot_addLoss
                (fun t => rfl) ?_,
              pointsOf_updateBot_other _ _ _ addWin bot_addWin (Ne.symm hwb), hchainb]
            · simp [creditBlack, htype, hwin]
            · rw [find?_updateBot_other _ _ _ addWin bot_addWin (Ne.symm hwb)]
              exact hsomeb
        · simp only [applyOutcome, htype, if_neg hwin]
          constructor
          · rw [pointsOf_updateBot_self _ _ addLoss POINTS_PER_LOSS bot_addLoss
                (fun t => rfl) ?_,
              pointsOf_updateBot_other _ _ _ addWin bot_addWin hwb, hchainw]
            · simp [creditWhite, htype, hwin]
            · rw [find?_updateBot_other _ _ _ addWin bot_addWin hwb]
              exact hsomew
          · rw [pointsOf_updateBot_other _ _ _ addLoss bot_addLoss (Ne.symm hwb),
              pointsOf_updateBot_self _ _ addWin POINTS_PER_WIN bot_addWin
                (fun t => rfl) hsomeb, hchainb]
            simp [creditBlack, htype, hwin]
      · simp only [applyOutcome, htype]
        constructor
        · rw [pointsOf_updateBot_other _ _ _ addDraw bot_addDraw hwb,
            pointsOf_updateBot_self _ _ addDraw POINTS_PER_DRAW bot_addDraw
              (fun t => rfl) hsomew, hchainw]
          simp [creditWhite, htype]
        · rw [pointsOf_updateBot_self _ _ addDraw POINTS_PER_DRAW bot_addDraw
              (fun t => rfl) ?_,
            pointsOf_updateBot_other _ _ _ addDraw bot_addDraw (Ne.symm hwb), hchainb]
          · simp [creditBlack, htype]
          · rw [find?_updateBot_other _ _ _ addDraw bot_addDraw (Ne.symm hwb)]
            exact hsomeb
    · intro htype hw
      simp [creditWhite, creditBlack, htype, hw]
    · intro htype hw
      have hne : (o.players.black == o.players.white) = false := by
        simpa using Ne.symm hwb
      simp [creditWhite, creditBlack, htype, hw, hne]
    · intro htype
      simp [creditWhite, creditBlack, htype]

/-- Witness for C10 at a two-outcome list: a checkmate win for white and a
stalemate draw between the same two distinct players. -/
theorem calculatePoints_conservation_witness :
    (∀ o ∈ outcomesW, o.players.white ≠ o.players.black) ∧
    totalPoints (calculatePoints outcomesW) = (outcomesW.length : ℚ) ∧
    (∀ t ∈ calculatePoints outcomesW,
      tally t = outcomesW.countP (fun o => appearsIn t.bot o)) ∧
    (pointsOf (applyOutcome [] winOutcomeW) winOutcomeW.players.white =
        pointsOf [] winOutcomeW.players.white + creditWhite winOutcomeW ∧
      pointsOf (applyOutcome [] winOutcomeW) winOutcomeW.players.black =
        pointsOf [] winOutcomeW.players.black + creditBlack winOutcomeW) ∧
    (creditWhite winOutcomeW = POINTS_PER_WIN ∧
      creditBlack winOutcomeW = POINTS_PER_LOSS) ∧
    (creditWhite drawOutcomeW = POINTS_PER_DRAW ∧
      creditBlack drawOutcomeW = POINTS_PER_DRAW) :=
  ⟨by decide, calculatePoints_conservation.1 outcomesW (by decide),
    calculatePoints_conservation.2.1 outcomesW (by decide),
    (calculatePoints_conservation.2.2 [] winOutcomeW (by decide)).1,
    (calculatePoints_conservation.2.2 [] winOutcomeW (by decide)).2.1 rfl rfl,
    (calculatePoints_conservation.2.2 [] drawOutcomeW (by decide)).2.2.2 rfl⟩

end ChessTournament
